import Mathlib

/-!
Verification development for the valtio-plugin hook-dispatch engine
(`src/index.ts`).  The TypeScript source is shallowly embedded: plugin
hooks become optional Lean functions returning `HookRes` (a thrown JS
exception is `HookRes.exn`), the proxy heap becomes an association list
of nodes carrying the hidden metadata tags, and the module-level mutable
registries become an explicit `EngineState` threaded through the
operations.  Hook invocations are recorded in an event trace so ordering
and lifecycle claims can be stated; `console.error` logging is modelled
by `Event.hookError` entries.  The memoisation layers
(`pluginCacheGeneration`, the per-registry `cachedPluginChain` and the
per-object WeakMap cache) are identity-preserving caches of
`buildInstancePluginChain` — every cache entry is invalidated by
`invalidatePluginCaches` on each registry mutation before it could go
stale — so they are elided and chains are recomputed.  The JS `Map`
deletion performed by `disposeInstanceRecursively` always coincides with
setting `isDisposed` on the registry object (and nothing else deletes
map entries), so the map is modelled as the registry store filtered by
the `isDisposed` flag, while closures captured by a factory read the
unfiltered registry object.
-/

namespace VP

/-- JS values flowing through the engine: `undefined`, primitives, and
references to compound (object) values living in the heap. -/
inductive Val where
  | undef : Val
  | boolV : Bool → Val
  | numV : Nat → Val
  | strV : String → Val
  | ref : Nat → Val
deriving DecidableEq, Repr

/-- Result of invoking a single JS hook: a normal return or a thrown
exception. -/
inductive HookRes (α : Type) where
  | ok : α → HookRes α
  | exn : HookRes α
deriving DecidableEq, Repr

/-- The hidden metadata tags attached via the five symbols
(`ROOT_PROXY_SYMBOL`, `INSTANCE_ID_SYMBOL`, `PROXY_PATH_SYMBOL`,
`GLOBAL_PROXY_SYMBOL`, `RAW_HOOKS_COUNT_SYMBOL`); `none` means the
symbol property is absent. -/
structure Meta where
  rootProxy : Option Nat := none
  instanceId : Option String := none
  path : Option (List String) := none
  isGlobal : Option Bool := none
  rawHooksCount : Option Int := none
deriving DecidableEq, Repr

/-- `addMetaData` from the source: each field is only (re)defined when
the corresponding argument passes the source's guard (`if (rootProxy)`,
truthy instance id, non-empty path array, `!== undefined` for the
rest). -/
def addMetaData (m : Meta) (patch : Meta) : Meta :=
  { rootProxy := match patch.rootProxy with
      | some r => some r
      | none => m.rootProxy
    instanceId := match patch.instanceId with
      | some s => if s = "" then m.instanceId else some s
      | none => m.instanceId
    path := match patch.path with
      | some p => if p = [] then m.path else some p
      | none => m.path
    isGlobal := match patch.isGlobal with
      | some b => some b
      | none => m.isGlobal
    rawHooksCount := match patch.rawHooksCount with
      | some c => some c
      | none => m.rawHooksCount }

/-- A tracked compound value: its plain string-keyed fields plus the
hidden metadata.  The valtio proxy and its backing target are unified
into one node (the source tags both with the same metadata). -/
structure Node where
  fields : List (String × Val) := []
  meta : Meta := {}
deriving DecidableEq, Repr

/-- The store of tracked objects, keyed by object identity. -/
abbrev Heap := List (Nat × Node)

def heapFind (h : Heap) (oid : Nat) : Option Node :=
  (h.find? (fun e => e.1 = oid)).map (fun e => e.2)

def nodeMeta (h : Heap) (oid : Nat) : Meta :=
  ((heapFind h oid).map Node.meta).getD {}

def fieldsGet (fs : List (String × Val)) (k : String) : Val :=
  ((fs.find? (fun e => e.1 = k)).map (fun e => e.2)).getD Val.undef

def fieldsSet : List (String × Val) → String → Val → List (String × Val)
  | [], k, v => [(k, v)]
  | (k', v') :: rest, k, v =>
      if k' = k then (k, v) :: rest else (k', v') :: fieldsSet rest k v

def fieldsDel (fs : List (String × Val)) (k : String) : List (String × Val) :=
  fs.filter (fun e => e.1 ≠ k)

def heapUpdate (h : Heap) (oid : Nat) (f : Node → Node) : Heap :=
  h.map (fun e => if e.1 = oid then (e.1, f e.2) else e)

/-- The substrate's default read (`Reflect.get` on the target). -/
def rawGet (h : Heap) (oid : Nat) (prop : String) : Val :=
  match heapFind h oid with
  | none => Val.undef
  | some n => fieldsGet n.fields prop

/-- The substrate's default write (`Reflect.set`); always reports
success on a plain data property. -/
def rawSet (h : Heap) (oid : Nat) (prop : String) (v : Val) : Heap × Bool :=
  (heapUpdate h oid (fun n => { n with fields := fieldsSet n.fields prop v }), true)

/-- The substrate's default delete (`Reflect.deleteProperty`); reports
success on configurable properties whether or not they existed. -/
def rawDelete (h : Heap) (oid : Nat) (prop : String) : Heap × Bool :=
  (heapUpdate h oid (fun n => { n with fields := fieldsDel n.fields prop }), true)

/-- A plugin descriptor: stable id plus the optional hook
implementations.  Hook argument order follows the source; the root
proxy argument is passed as its object id, and `canProxy`'s
`originalCanProxy` argument is passed as its value on the inspected
input. -/
structure Plugin where
  id : String
  name : Option String := none
  onInit : Option (Unit → HookRes Unit) := none
  onAttach : Option (Unit → HookRes Unit) := none
  onDispose : Option (Unit → HookRes Unit) := none
  onGet : Option (List String → Val → Nat → HookRes Unit) := none
  onGetRaw : Option (Nat → String → Nat → Val → HookRes Unit) := none
  transformGet : Option (List String → Val → Nat → HookRes Val) := none
  transformSet : Option (List String → Val → Nat → HookRes Val) := none
  beforeChange : Option (List String → Val → Val → Nat → HookRes Val) := none
  afterChange : Option (List String → Val → Nat → HookRes Unit) := none
  onSubscribe : Option (Nat → HookRes Unit) := none
  onSnapshot : Option (Val → HookRes Unit) := none
  canProxy : Option (Val → Bool → HookRes Val) := none

/-- Trace of externally observable engine activity: one entry per hook
invocation, one `hookError` entry per caught-and-logged exception, and
structural events of scope disposal. -/
inductive Event where
  | onGetRaw (pid : String) : Event
  | onGet (pid : String) (path : List String) (v : Val) : Event
  | transformGet (pid : String) (path : List String) (v : Val) : Event
  | transformSet (pid : String) (path : List String) (v : Val) : Event
  | beforeChange (pid : String) (path : List String) (nv pv : Val) : Event
  | afterChange (pid : String) (path : List String) (v : Val) : Event
  | onInit (pid : String) : Event
  | onAttach (pid : String) : Event
  | onDispose (sid pid : String) : Event
  | onSubscribe (pid : String) : Event
  | onSnapshot (pid : String) : Event
  | canProxy (pid : String) : Event
  | hookError (pid : String) (hook : String) : Event
  | unlink (child parent : String) : Event
  | markDisposed (sid : String) : Event
deriving DecidableEq, Repr

/-- The plugin id an event is attributed to, when it records a hook
invocation or a logged hook error. -/
def Event.pluginId : Event → Option String
  | .onGetRaw pid => some pid
  | .onGet pid _ _ => some pid
  | .transformGet pid _ _ => some pid
  | .transformSet pid _ _ => some pid
  | .beforeChange pid _ _ _ => some pid
  | .afterChange pid _ _ => some pid
  | .onInit pid => some pid
  | .onAttach pid => some pid
  | .onDispose _ pid => some pid
  | .onSubscribe pid => some pid
  | .onSnapshot pid => some pid
  | .canProxy pid => some pid
  | .hookError pid _ => some pid
  | .unlink _ _ => none
  | .markDisposed _ => none

/-- One scope's registry record (`InstanceRegistry` in the source).
`cachedPluginChain` is elided (see the module comment). -/
structure Reg where
  id : String
  parentId : Option String := none
  plugins : List Plugin := []
  isDisposed : Bool := false
  children : List String := []
  rawHooksCount : Int := 0

/-- The module-level mutable state of the engine: the global plugin
registry, the instance registry store, the global raw-hook counter and
the current instance context marker. -/
structure EngineState where
  globalPlugins : List Plugin := []
  regs : List (String × Reg) := []
  globalRawHooksCount : Int := 0
  currentInstanceContext : Option String := none
  nextId : Nat := 0

/-- Lookup of the live registry *object* by id (what a factory closure
captured at creation sees, disposed or not). -/
def findReg (st : EngineState) (iid : String) : Option Reg :=
  ((st.regs.find? (fun e => e.1 = iid)).map (fun e => e.2))

/-- `instanceRegistry.get`: map membership; an entry is deleted from the
map exactly when its registry object is marked disposed. -/
def mapGet (st : EngineState) (iid : String) : Option Reg :=
  match findReg st iid with
  | some r => if r.isDisposed then none else some r
  | none => none

/-- `instanceRegistry.size`. -/
def aliveCount (st : EngineState) : Nat :=
  (st.regs.filter (fun e => ¬ e.2.isDisposed)).length

def updateReg (st : EngineState) (iid : String) (f : Reg → Reg) : EngineState :=
  { st with regs := st.regs.map (fun e => if e.1 = iid then (e.1, f e.2) else e) }

/-- The `while (currentInstanceId)` walk of `buildInstancePluginChain`:
the hierarchy list from the topmost reachable ancestor down to the
start id; the start id is pushed before its registry lookup, so it is
present even when its registry is missing.  The source loop terminates
because parent links are acyclic; fuel bounds the walk here. -/
def hierWalk (st : EngineState) : Nat → Option String → List String
  | _, none => []
  | 0, some _ => []
  | fuel + 1, some cur =>
      match mapGet st cur with
      | none => [cur]
      | some reg => hierWalk st fuel reg.parentId ++ [cur]

/-- The `for (const id of hierarchy)` collection loop. -/
def collectOwn (st : EngineState) : List String → List Plugin
  | [] => []
  | iid :: rest =>
      (match mapGet st iid with
        | some reg => if reg.isDisposed then [] else reg.plugins
        | none => []) ++ collectOwn st rest

/-- `buildInstancePluginChain`: global plugins first, then each
hierarchy scope's own plugins from the topmost ancestor down. -/
def buildInstancePluginChain (st : EngineState) (iid : String) : List Plugin :=
  st.globalPlugins ++ collectOwn st (hierWalk st (st.regs.length + 1) (some iid))

/-- `getApplicablePlugins` given the metadata of the receiving object
(cache layers elided). -/
def getApplicablePluginsMeta (st : EngineState) (m : Meta) : List Plugin :=
  if st.globalPlugins.length = 0 ∧ aliveCount st = 0 then []
  else
    match m.instanceId with
    | none => st.globalPlugins
    | some iid =>
        if iid = "" then st.globalPlugins
        else
          match mapGet st iid with
          | some _ => buildInstancePluginChain st iid
          | none => st.globalPlugins

def getApplicablePlugins (st : EngineState) (h : Heap) (oid : Nat) : List Plugin :=
  getApplicablePluginsMeta st (nodeMeta h oid)

/-- `getApplicablePluginsUncached`. -/
def getApplicablePluginsUncached (st : EngineState) (iid : Option String) : List Plugin :=
  match iid with
  | none => st.globalPlugins
  | some i =>
      match mapGet st i with
      | some _ => buildInstancePluginChain st i
      | none => st.globalPlugins

/-- `getInstanceRawHooksCount`: sum of own raw-hook counters up the
parent chain. -/
def instRawWalk (st : EngineState) : Nat → Option String → Int
  | _, none => 0
  | 0, some _ => 0
  | fuel + 1, some cur =>
      match mapGet st cur with
      | none => 0
      | some reg => reg.rawHooksCount + instRawWalk st fuel reg.parentId

def getInstanceRawHooksCount (st : EngineState) (iid : String) : Int :=
  instRawWalk st (st.regs.length + 1) (some iid)

/-! ## Hook invocation loops of the three traps

Each loop mirrors one `for (const plugin of applicablePlugins)` loop of
the source.  Every loop except the raw-read one wraps the invocation in
`try { ... } catch { console.error(...) }`; the raw-read loop performs
the call unwrapped, so a thrown exception escapes the `get` trap. -/

/-- The `onGetRaw` loop inside `handler.get` — the invocation is NOT
wrapped in try/catch, so a throwing hook aborts the whole read. -/
def runOnGetRawLoop (target : Nat) (prop : String) (receiver : Nat) (v : Val) :
    List Plugin → Except Unit (List Event)
  | [] => .ok []
  | p :: ps =>
      match p.onGetRaw with
      | none => runOnGetRawLoop target prop receiver v ps
      | some f =>
          match f target prop receiver v with
          | .exn => .error ()
          | .ok _ =>
              match runOnGetRawLoop target prop receiver v ps with
              | .error e => .error e
              | .ok evs => .ok (Event.onGetRaw p.id :: evs)

/-- The `onGet` observation loop (wrapped; return value ignored). -/
def runOnGetLoop (path : List String) (v : Val) (root : Nat) :
    List Plugin → List Event
  | [] => []
  | p :: ps =>
      (match p.onGet with
        | none => []
        | some f =>
            match f path v root with
            | .ok _ => [Event.onGet p.id path v]
            | .exn => [Event.onGet p.id path v, Event.hookError p.id "onGet"]) ++
        runOnGetLoop path v root ps

/-- The `transformGet` loop: a defined (non-`undefined`) return value
replaces the current value for the next plugin; exceptions are caught
and treated as "no transform". -/
def runTransformGetLoop (path : List String) (root : Nat) :
    List Plugin → Val → Val × List Event
  | [], v => (v, [])
  | p :: ps, v =>
      match p.transformGet with
      | none => runTransformGetLoop path root ps v
      | some f =>
          match f path v root with
          | .exn =>
              let r := runTransformGetLoop path root ps v
              (r.1, Event.transformGet p.id path v :: Event.hookError p.id "transformGet" :: r.2)
          | .ok tv =>
              let v1 := if tv = Val.undef then v else tv
              let r := runTransformGetLoop path root ps v1
              (r.1, Event.transformGet p.id path v :: r.2)

/-- The `transformSet` loop of `handler.set` (same chaining rule). -/
def runTransformSetLoop (path : List String) (root : Nat) :
    List Plugin → Val → Val × List Event
  | [], v => (v, [])
  | p :: ps, v =>
      match p.transformSet with
      | none => runTransformSetLoop path root ps v
      | some f =>
          match f path v root with
          | .exn =>
              let r := runTransformSetLoop path root ps v
              (r.1, Event.transformSet p.id path v :: Event.hookError p.id "transformSet" :: r.2)
          | .ok tv =>
              let v1 := if tv = Val.undef then v else tv
              let r := runTransformSetLoop path root ps v1
              (r.1, Event.transformSet p.id path v :: r.2)

/-- The `beforeChange` veto loop: a result that is exactly `false`
short-circuits (first component `true` = vetoed); exceptions are caught
and dispatch continues. -/
def runBeforeChangeLoop (path : List String) (nv pv : Val) (root : Nat) :
    List Plugin → Bool × List Event
  | [] => (false, [])
  | p :: ps =>
      match p.beforeChange with
      | none => runBeforeChangeLoop path nv pv root ps
      | some f =>
          match f path nv pv root with
          | .exn =>
              let r := runBeforeChangeLoop path nv pv root ps
              (r.1, Event.beforeChange p.id path nv pv :: Event.hookError p.id "beforeChange" :: r.2)
          | .ok res =>
              if res = Val.boolV false then (true, [Event.beforeChange p.id path nv pv])
              else
                let r := runBeforeChangeLoop path nv pv root ps
                (r.1, Event.beforeChange p.id path nv pv :: r.2)

/-- The `afterChange` post-commit loop (wrapped; return ignored). -/
def runAfterChangeLoop (path : List String) (v : Val) (root : Nat) :
    List Plugin → List Event
  | [] => []
  | p :: ps =>
      (match p.afterChange with
        | none => []
        | some f =>
            match f path v root with
            | .ok _ => [Event.afterChange p.id path v]
            | .exn => [Event.afterChange p.id path v, Event.hookError p.id "afterChange"]) ++
        runAfterChangeLoop path v root ps

/-- The `onSubscribe` loop of the `subscribe` wrappers. -/
def runOnSubscribeLoop (obj : Nat) : List Plugin → List Event
  | [] => []
  | p :: ps =>
      (match p.onSubscribe with
        | none => []
        | some f =>
            match f obj with
            | .ok _ => [Event.onSubscribe p.id]
            | .exn => [Event.onSubscribe p.id, Event.hookError p.id "onSubscribe"]) ++
        runOnSubscribeLoop obj ps

/-- The `onSnapshot` loop of the `snapshot` wrappers. -/
def runOnSnapshotLoop (snap : Val) : List Plugin → List Event
  | [] => []
  | p :: ps =>
      (match p.onSnapshot with
        | none => []
        | some f =>
            match f snap with
            | .ok _ => [Event.onSnapshot p.id]
            | .exn => [Event.onSnapshot p.id, Event.hookError p.id "onSnapshot"]) ++
        runOnSnapshotLoop snap ps

/-- The `canProxy` loop of the replaced internal `canProxy`: a result
that is exactly `false` short-circuits to `false`; exceptions are
caught. -/
def runCanProxyLoop (v : Val) (orig : Bool) : List Plugin → Bool × List Event
  | [] => (true, [])
  | p :: ps =>
      match p.canProxy with
      | none => runCanProxyLoop v orig ps
      | some f =>
          match f v orig with
          | .exn =>
              let r := runCanProxyLoop v orig ps
              (r.1, Event.canProxy p.id :: Event.hookError p.id "canProxy" :: r.2)
          | .ok res =>
              if res = Val.boolV false then (false, [Event.canProxy p.id])
              else
                let r := runCanProxyLoop v orig ps
                (r.1, Event.canProxy p.id :: r.2)

/-- The `onInit` loop run at proxy creation. -/
def runOnInitLoop : List Plugin → List Event
  | [] => []
  | p :: ps =>
      (match p.onInit with
        | none => []
        | some f =>
            match f () with
            | .ok _ => [Event.onInit p.id]
            | .exn => [Event.onInit p.id, Event.hookError p.id "onInit"]) ++
        runOnInitLoop ps

/-- The `onDispose` loop of `disposeInstanceRecursively` (each
invocation wrapped); `sid` records which scope's own list is being
disposed. -/
def runOnDisposeLoop (sid : String) : List Plugin → List Event
  | [] => []
  | p :: ps =>
      (match p.onDispose with
        | none => []
        | some f =>
            match f () with
            | .ok _ => [Event.onDispose sid p.id]
            | .exn => [Event.onDispose sid p.id, Event.hookError p.id "onDispose"]) ++
        runOnDisposeLoop sid ps

/-! ## The three intercepted traps -/

/-- Step 7 of the `get` trap: metadata propagation onto a compound,
not-yet-tagged result. -/
def metaPropagate (h : Heap) (receiver : Nat) (prop : String) (result : Val) : Heap :=
  let meta := nodeMeta h receiver
  match result with
  | Val.ref roid =>
      if roid = receiver then h
      else if meta.rootProxy.isSome then
        if (nodeMeta h roid).rootProxy.isSome then h
        else
          let parentPath := meta.path.getD []
          let patch : Meta :=
            { rootProxy := meta.rootProxy
              instanceId := meta.instanceId
              path := some (parentPath ++ [prop])
              isGlobal := meta.isGlobal
              rawHooksCount := meta.rawHooksCount }
          heapUpdate h roid (fun n => { n with meta := addMetaData n.meta patch })
      else h
  | _ => h

/-- The body of the `get` trap after the no-plugins fast path, with the
hoisted `applicablePlugins` made explicit (the source computes it at
most once via `getApplicablePlugins(receiver)`; being pure here it is
passed in).  Returns `.error` when an unwrapped `onGetRaw` hook
throws. -/
def handlerGetSlow (st : EngineState) (h : Heap) (receiver : Nat) (prop : String)
    (isInitializing : Bool) (applicablePlugins : List Plugin) :
    Except Unit (Val × Heap × List Event) :=
  let result := rawGet h receiver prop
  let meta := nodeMeta h receiver
  let shouldCheckRawHooks :=
    st.globalRawHooksCount > 0 ∨ meta.rawHooksCount.getD 0 > 0
  match (if shouldCheckRawHooks then
          runOnGetRawLoop receiver prop receiver result applicablePlugins
        else .ok []) with
  | .error e => .error e
  | .ok rawEvents =>
      let h1 := metaPropagate h receiver prop result
      match meta.rootProxy, meta.instanceId with
      | some root, some iid =>
          if isInitializing ∨ iid = "" then .ok (result, h1, rawEvents)
          else
            let hasHighLevelHooks :=
              applicablePlugins.any (fun p => p.onGet.isSome || p.transformGet.isSome)
            if hasHighLevelHooks then
              let fullPath := meta.path.getD [] ++ [prop]
              let ev1 := runOnGetLoop fullPath result root applicablePlugins
              let tr := runTransformGetLoop fullPath root applicablePlugins result
              .ok (tr.1, h1, rawEvents ++ ev1 ++ tr.2)
            else .ok (result, h1, rawEvents)
      | _, _ => .ok (result, h1, rawEvents)

/-- `handler.get` (metadata-symbol props are out of band here and need
no skip branch). -/
def handlerGet (st : EngineState) (h : Heap) (receiver : Nat) (prop : String)
    (isInitializing : Bool) : Except Unit (Val × Heap × List Event) :=
  if st.globalPlugins.length = 0 ∧ aliveCount st = 0 then
    .ok (rawGet h receiver prop, h, [])
  else handlerGetSlow st h receiver prop isInitializing (getApplicablePlugins st h receiver)

/-- The body of the `set` trap past its early passthroughs, with the
root id and `applicablePlugins` explicit.  The context-marker
save/restore around the delegated write is elided: it is restored in a
`finally` and the substrate's default write cannot observe it in this
embedding. -/
def handlerSetSlow (h : Heap) (receiver : Nat) (prop : String) (value : Val)
    (root : Nat) (applicablePlugins : List Plugin) : Bool × Heap × List Event :=
  let prevValue := rawGet h receiver prop
  let fullPath := (nodeMeta h receiver).path.getD [] ++ [prop]
  let t := runTransformSetLoop fullPath root applicablePlugins value
  let b := runBeforeChangeLoop fullPath t.1 prevValue root applicablePlugins
  if b.1 then (true, h, t.2 ++ b.2)
  else
    let r := rawSet h receiver prop t.1
    let after := if r.2 then runAfterChangeLoop fullPath t.1 root applicablePlugins else []
    (r.2, r.1, t.2 ++ b.2 ++ after)

/-- `handler.set`. -/
def handlerSet (st : EngineState) (h : Heap) (receiver : Nat) (prop : String)
    (value : Val) (isInitializing : Bool) : Bool × Heap × List Event :=
  if st.globalPlugins.length = 0 ∧ aliveCount st = 0 then
    let r := rawSet h receiver prop value
    (r.2, r.1, [])
  else
    let meta := nodeMeta h receiver
    if isInitializing then
      let r := rawSet h receiver prop value
      (r.2, r.1, [])
    else
      match meta.rootProxy, meta.instanceId with
      | some root, some iid =>
          if iid = "" then
            let r := rawSet h receiver prop value
            (r.2, r.1, [])
          else handlerSetSlow h receiver prop value root (getApplicablePlugins st h receiver)
      | _, _ =>
          let r := rawSet h receiver prop value
          (r.2, r.1, [])

/-- The body of the `deleteProperty` trap past its early passthroughs.
On a veto the source returns `false` (unlike the `set` trap's
`true`). -/
def handlerDeleteSlow (h : Heap) (target : Nat) (prop : String)
    (root : Nat) (applicablePlugins : List Plugin) : Bool × Heap × List Event :=
  let prevValue := rawGet h target prop
  let fullPath := (nodeMeta h target).path.getD [] ++ [prop]
  let b := runBeforeChangeLoop fullPath Val.undef prevValue root applicablePlugins
  if b.1 then (false, h, b.2)
  else
    let r := rawDelete h target prop
    let after := if r.2 then runAfterChangeLoop fullPath Val.undef root applicablePlugins else []
    (r.2, r.1, b.2 ++ after)

/-- `handler.deleteProperty` (metadata is read from the target; target
and proxy are one node here). -/
def handlerDelete (st : EngineState) (h : Heap) (target : Nat) (prop : String)
    (isInitializing : Bool) : Bool × Heap × List Event :=
  if st.globalPlugins.length = 0 ∧ aliveCount st = 0 then
    let r := rawDelete h target prop
    (r.2, r.1, [])
  else if isInitializing then
    let r := rawDelete h target prop
    (r.2, r.1, [])
  else
    let meta := nodeMeta h target
    match meta.rootProxy, meta.instanceId with
    | some root, some iid =>
        if iid = "" then
          let r := rawDelete h target prop
          (r.2, r.1, [])
        else handlerDeleteSlow h target prop root (getApplicablePlugins st h target)
    | _, _ =>
        let r := rawDelete h target prop
        (r.2, r.1, [])

/-! ## subscribe / snapshot / canProxy wrappers -/

/-- The `proxy.subscribe` wrapper: run `onSubscribe` hooks of the
applicable plugins, then delegate to the substrate (whose unsubscriber
is opaque here). -/
def subscribeDispatch (st : EngineState) (h : Heap) (oid : Nat) : List Event :=
  runOnSubscribeLoop oid (getApplicablePlugins st h oid)

/-- The `proxy.snapshot` wrapper: the substrate snapshot is modelled as
an opaque token; it is passed to every `onSnapshot` hook and returned
unchanged. -/
def snapshotDispatch (st : EngineState) (h : Heap) (oid : Nat) : Val × List Event :=
  (Val.ref oid, runOnSnapshotLoop (Val.ref oid) (getApplicablePlugins st h oid))

/-- The replaced internal `canProxy`: substrate veto first, then the
fast path, then the chain for the current context marker. -/
def canProxyDispatch (st : EngineState) (v : Val) (origCanProxy : Bool) :
    Bool × List Event :=
  if ¬ origCanProxy then (false, [])
  else if st.globalPlugins.length = 0 ∧ st.currentInstanceContext = none then (true, [])
  else runCanProxyLoop v origCanProxy (getApplicablePluginsUncached st st.currentInstanceContext)

/-! ## Registration and scope lifecycle -/

/-- The wrapped `onAttach` call performed for each registered plugin. -/
def attachEvts (p : Plugin) : List Event :=
  match p.onAttach with
  | none => []
  | some f =>
      match f () with
      | .ok _ => [Event.onAttach p.id]
      | .exn => [Event.onAttach p.id, Event.hookError p.id "onAttach"]

/-- One iteration of the global `use` loop: replace in place by id
(adjusting the raw-hook counter) or append, then call `onAttach`. -/
def useGlobalOne (st : EngineState) (p : Plugin) : EngineState × List Event :=
  match st.globalPlugins.findIdx? (fun q => q.id = p.id) with
  | some i =>
      let old := st.globalPlugins.getD i { id := "" }
      let grc := st.globalRawHooksCount
        - (if old.onGetRaw.isSome then 1 else 0)
        + (if p.onGetRaw.isSome then 1 else 0)
      ({ st with globalPlugins := st.globalPlugins.set i p, globalRawHooksCount := grc },
        attachEvts p)
  | none =>
      ({ st with globalPlugins := st.globalPlugins ++ [p],
                 globalRawHooksCount := st.globalRawHooksCount
                   + (if p.onGetRaw.isSome then 1 else 0) },
        attachEvts p)

/-- `proxy.use(pluginOrPlugins)` on the global scope (cache
invalidation elided). -/
def useGlobal (st : EngineState) : List Plugin → EngineState × List Event
  | [] => (st, [])
  | p :: ps =>
      let r := useGlobalOne st p
      let r2 := useGlobal r.1 ps
      (r2.1, r.2 ++ r2.2)

/-- One iteration of the instance `use` loop; the raw-hook counter is
incremented after `onAttach`, exactly as in the source. -/
def useInstanceOne (st : EngineState) (iid : String) (p : Plugin) :
    EngineState × List Event :=
  match findReg st iid with
  | none => (st, [])
  | some reg =>
      let st1 :=
        match reg.plugins.findIdx? (fun q => q.id = p.id) with
        | some i =>
            let old := reg.plugins.getD i { id := "" }
            updateReg st iid (fun r =>
              { r with
                rawHooksCount := r.rawHooksCount - (if old.onGetRaw.isSome then 1 else 0)
                plugins := r.plugins.set i p })
        | none => updateReg st iid (fun r => { r with plugins := r.plugins ++ [p] })
      let evs := attachEvts p
      let st2 :=
        if p.onGetRaw.isSome then
          updateReg st1 iid (fun r => { r with rawHooksCount := r.rawHooksCount + 1 })
        else st1
      (st2, evs)

def useInstanceList (st : EngineState) (iid : String) :
    List Plugin → EngineState × List Event
  | [] => (st, [])
  | p :: ps =>
      let r := useInstanceOne st iid p
      let r2 := useInstanceList r.1 iid ps
      (r2.1, r.2 ++ r2.2)

/-- `instance.use(...)`: raises the disposed-instance usage error, else
runs the registration loop. -/
def useInstance (st : EngineState) (iid : String) (ps : List Plugin) :
    Except String (EngineState × List Event) :=
  match findReg st iid with
  | none => .error "no such instance"
  | some reg =>
      if reg.isDisposed then .error "This instance has been disposed"
      else .ok (useInstanceList st iid ps)

/-- `createProxyInstance`: allocate a fresh scope and link it under the
optional parent. -/
def createProxyInstance (st : EngineState) (parentId : Option String) :
    EngineState × String :=
  let iid := "valtio-plugin-" ++ toString st.nextId
  let reg : Reg := { id := iid, parentId := parentId }
  let st1 := { st with nextId := st.nextId + 1, regs := st.regs ++ [(iid, reg)] }
  let st2 :=
    match parentId with
    | some pid =>
        match mapGet st1 pid with
        | some _ => updateReg st1 pid (fun r => { r with children := r.children ++ [iid] })
        | none => st1
    | none => st1
  (st2, iid)

/-- `instance.createInstance()`: usage error on a disposed parent. -/
def createChildInstance (st : EngineState) (pid : String) :
    Except String (EngineState × String) :=
  match findReg st pid with
  | none => .error "no such instance"
  | some reg =>
      if reg.isDisposed then .error "This instance has been disposed"
      else .ok (createProxyInstance st (some pid))

/-- `createProxy` of an instance factory: usage error on a disposed
scope; otherwise the new root is tagged (note `addMetaData` skips the
empty root path, so roots have no path property) and the applicable
plugins' `onInit` hooks run.  The context push/pop around the substrate
call is elided as in `handlerSet`. -/
def instanceCreateProxy (st : EngineState) (iid : String) (h : Heap) (newOid : Nat)
    (fields : List (String × Val)) : Except String (Heap × List Event) :=
  match findReg st iid with
  | none => .error "no such instance"
  | some reg =>
      if reg.isDisposed then .error "This instance has been disposed"
      else
        let totalRaw := st.globalRawHooksCount + getInstanceRawHooksCount st iid
        let meta := addMetaData {}
          { rootProxy := some newOid
            instanceId := some iid
            path := some []
            isGlobal := some false
            rawHooksCount := some totalRaw }
        let h1 := h ++ [(newOid, { fields := fields, meta := meta })]
        .ok (h1, runOnInitLoop (getApplicablePluginsMeta st meta))

mutual

/-- `disposeInstanceRecursively`: no-op when the scope is missing or
already disposed; otherwise children first, then the unlink from the
parent, then the own plugins' `onDispose` hooks, then the disposed
mark (the JS `Map` deletion; children cleared).  The source recursion
terminates on the acyclic scope forest; fuel bounds it here. -/
def disposeInstanceRecursively (fuel : Nat) (st : EngineState) (iid : String) :
    EngineState × List Event :=
  match findReg st iid with
  | none => (st, [])
  | some reg =>
      if reg.isDisposed then (st, [])
      else
        match fuel with
        | 0 => (st, [])
        | fuel' + 1 =>
            let r1 := disposeChildren fuel' st reg.children
            let r2 :=
              match reg.parentId with
              | some pid =>
                  match mapGet r1.1 pid with
                  | some _ =>
                      (updateReg r1.1 pid (fun pr =>
                          { pr with children := pr.children.filter (fun c => c ≠ iid) }),
                        [Event.unlink iid pid])
                  | none => (r1.1, ([] : List Event))
              | none => (r1.1, ([] : List Event))
            let tr3 := runOnDisposeLoop iid reg.plugins
            let st3 := updateReg r2.1 iid (fun r =>
              { r with isDisposed := true, children := [] })
            (st3, r1.2 ++ r2.2 ++ tr3 ++ [Event.markDisposed iid])
  termination_by (fuel, 0)

/-- The `for (const childId of registry.children)` loop (the snapshot
list is faithful: only the visited child removes itself from the live
set during iteration). -/
def disposeChildren (fuel : Nat) (st : EngineState) (cs : List String) :
    EngineState × List Event :=
  match cs with
  | [] => (st, [])
  | c :: rest =>
      let r1 := disposeInstanceRecursively fuel st c
      let r2 := disposeChildren fuel r1.1 rest
      (r2.1, r1.2 ++ r2.2)
  termination_by (fuel, cs.length + 1)

end

/-- `instance.dispose()`. -/
def disposeScope (st : EngineState) (iid : String) : EngineState × List Event :=
  disposeInstanceRecursively (st.regs.length + 1) st iid

/-! ## Property access on an instance handle -/

def reservedFactoryProps : List String :=
  ["use", "subscribe", "snapshot", "dispose", "createInstance"]

/-- The instance factory's `Proxy` `get` handler: factory methods win,
then the first plugin in the resolved chain whose id equals the
property name; `none` falls through to `Reflect.get` on the factory
function. -/
def instanceGetProp (st : EngineState) (iid : String) (prop : String) : Option Plugin :=
  if prop ∈ reservedFactoryProps then none
  else (getApplicablePluginsUncached st (some iid)).find? (fun p => p.id = prop)

/-! ## Support definitions for the claims -/

/-- Names of the optional hooks of a plugin descriptor. -/
inductive HookName where
  | onInit | onAttach | onDispose | onGet | onGetRaw
  | transformGet | transformSet | beforeChange | afterChange
  | onSubscribe | onSnapshot | canProxy
deriving DecidableEq, Repr

/-- The plugin with the named hook absent — "the throwing plugin absent
from that one invocation". -/
def removeHook (h : HookName) (p : Plugin) : Plugin :=
  match h with
  | .onInit => { p with onInit := none }
  | .onAttach => { p with onAttach := none }
  | .onDispose => { p with onDispose := none }
  | .onGet => { p with onGet := none }
  | .onGetRaw => { p with onGetRaw := none }
  | .transformGet => { p with transformGet := none }
  | .transformSet => { p with transformSet := none }
  | .beforeChange => { p with beforeChange := none }
  | .afterChange => { p with afterChange := none }
  | .onSubscribe => { p with onSubscribe := none }
  | .onSnapshot => { p with onSnapshot := none }
  | .canProxy => { p with canProxy := none }

/-- The named hook is present and throws on every input (a faulty
plugin). -/
def throwsAlways (p : Plugin) (h : HookName) : Prop :=
  match h with
  | .onInit => ∃ f, p.onInit = some f ∧ ∀ a, f a = .exn
  | .onAttach => ∃ f, p.onAttach = some f ∧ ∀ a, f a = .exn
  | .onDispose => ∃ f, p.onDispose = some f ∧ ∀ a, f a = .exn
  | .onGet => ∃ f, p.onGet = some f ∧ ∀ a b c, f a b c = .exn
  | .onGetRaw => ∃ f, p.onGetRaw = some f ∧ ∀ a b c d, f a b c d = .exn
  | .transformGet => ∃ f, p.transformGet = some f ∧ ∀ a b c, f a b c = .exn
  | .transformSet => ∃ f, p.transformSet = some f ∧ ∀ a b c, f a b c = .exn
  | .beforeChange => ∃ f, p.beforeChange = some f ∧ ∀ a b c d, f a b c d = .exn
  | .afterChange => ∃ f, p.afterChange = some f ∧ ∀ a b c, f a b c = .exn
  | .onSubscribe => ∃ f, p.onSubscribe = some f ∧ ∀ a, f a = .exn
  | .onSnapshot => ∃ f, p.onSnapshot = some f ∧ ∀ a, f a = .exn
  | .canProxy => ∃ f, p.canProxy = some f ∧ ∀ a b, f a b = .exn

/-- Events of a trace attributed to a given plugin id removed — what
the other plugins observe. -/
def tracePurge (pid : String) (tr : List Event) : List Event :=
  tr.filter (fun e => e.pluginId ≠ some pid)

/-- The parent-link chain of a scope, listed from the scope itself up
to the topmost ancestor; every link must be a live registry entry. -/
def upChain (st : EngineState) : List String → Prop
  | [] => False
  | [a] => ∃ r, mapGet st a = some r ∧ r.parentId = none
  | a :: b :: rest =>
      (∃ r, mapGet st a = some r ∧ r.parentId = some b) ∧ upChain st (b :: rest)

/-- A scope's own plugin list (empty when the scope is dead). -/
def ownPlugins (st : EngineState) (iid : String) : List Plugin :=
  ((mapGet st iid).map Reg.plugins).getD []

/-- Events recording `onDispose` invocations of scope `sid`'s own
plugins. -/
def isOnDisposeOf (sid : String) : Event → Bool
  | .onDispose s _ => s = sid
  | _ => false

/-- The `onDispose` invocations scope `sid` should see: one per
hook-bearing own plugin, in list order. -/
def onDisposeEvts (sid : String) (ps : List Plugin) : List Event :=
  ps.filterMap (fun p => if p.onDispose.isSome then some (Event.onDispose sid p.id) else none)

/-- Is this event an `onGet` observation? -/
def Event.isOnGet : Event → Bool
  | .onGet _ _ _ => true
  | _ => false

/-- What one plugin's `transformGet` stage does to the value flowing
through the read pipeline. -/
def transformGetStep (path : List String) (root : Nat) (p : Plugin) (v : Val) : Val :=
  match p.transformGet with
  | none => v
  | some f =>
      match f path v root with
      | .exn => v
      | .ok tv => if tv = Val.undef then v else tv

/-- What one plugin's `transformSet` stage does to the value flowing
through the write pipeline. -/
def transformSetStep (path : List String) (root : Nat) (p : Plugin) (v : Val) : Val :=
  match p.transformSet with
  | none => v
  | some f =>
      match f path v root with
      | .exn => v
      | .ok tv => if tv = Val.undef then v else tv

/-- The externally visible result of a read: returned value and
resulting state, without the diagnostic trace. -/
def getVisible (r : Except Unit (Val × Heap × List Event)) : Except Unit (Val × Heap) :=
  r.map (fun o => (o.1, o.2.1))

/-- The trace of a read (empty when the read was aborted by an
uncaught raw-hook exception). -/
def getTrace (r : Except Unit (Val × Heap × List Event)) : List Event :=
  match r with
  | .ok o => o.2.2
  | .error _ => []

/-- Is the scope a live registry entry (present in the `Map` and not
disposed)? -/
def aliveIn (st : EngineState) (x : String) : Bool :=
  match findReg st x with
  | some r => !r.isDisposed
  | none => false

/-- `z` is a live child link of `y`: `y` is a live scope listing `z`
among its children. -/
def childLink (st : EngineState) (y z : String) : Prop :=
  ∃ r, findReg st y = some r ∧ r.isDisposed = false ∧ z ∈ r.children

/-- A descending chain of live child links from `x` to `d`, through the
intermediate scopes `l` (the last element of `x :: l` is `d`).  The
proper descendants of `x` are the scopes reachable this way. -/
def descChain (st : EngineState) : String → List String → String → Prop
  | x, [], d => childLink st x d
  | x, z :: rest, d => childLink st x z ∧ descChain st z rest d

/-- Acyclicity of the scope forest: every child strictly decreases the
given rank (the scope hierarchy really is a finite forest). -/
def RankOK (st : EngineState) (rank : String → Nat) : Prop :=
  ∀ j r, findReg st j = some r → ∀ c ∈ r.children, rank c < rank j

/-- How a registry entry may change across a disposal: plugins, parent
link and raw-hook counter untouched; the disposed mark is monotone; the
children list only loses members. -/
def RegRel : Option Reg → Option Reg → Prop
  | none, none => True
  | some r, some r' =>
      r'.plugins = r.plugins ∧ r'.parentId = r.parentId ∧
      r'.rawHooksCount = r.rawHooksCount ∧
      (r.isDisposed = true → r'.isDisposed = true) ∧
      r'.children.Sublist r.children
  | _, _ => False

/-- Pointwise evolution of the registry store across a disposal. -/
def stEvolves (st st' : EngineState) : Prop :=
  ∀ j, RegRel (findReg st j) (findReg st' j)

/-- What one `disposeInstanceRecursively` call guarantees: the store
evolves pointwise; every scope the call kills fires its own plugins'
`onDispose` hooks exactly once (in list order) and no other scope fires
any; only scopes of rank at most the target's are killed; live child
links between survivors survive; a dead scope's children are dead
(disposal is hereditary); and the target itself ends up dead. -/
def DisposalSpec (rank : String → Nat) (st : EngineState) (iid : String)
    (out : EngineState × List Event) : Prop :=
  stEvolves st out.1 ∧
  (∀ d, out.2.filter (isOnDisposeOf d) =
    (if aliveIn st d = true ∧ aliveIn out.1 d = false
     then onDisposeEvts d (ownPlugins st d) else [])) ∧
  (∀ d, aliveIn st d = true → aliveIn out.1 d = false → rank d ≤ rank iid) ∧
  (∀ y z, childLink st y z → aliveIn out.1 y = true → aliveIn out.1 z = true →
    childLink out.1 y z) ∧
  (∀ y z, childLink st y z → aliveIn out.1 y = false → aliveIn out.1 z = false) ∧
  aliveIn out.1 iid = false

/-- The same guarantees for the `for (const childId of ...)` loop. -/
def DisposalListSpec (rank : String → Nat) (st : EngineState) (cs : List String)
    (out : EngineState × List Event) : Prop :=
  stEvolves st out.1 ∧
  (∀ d, out.2.filter (isOnDisposeOf d) =
    (if aliveIn st d = true ∧ aliveIn out.1 d = false
     then onDisposeEvts d (ownPlugins st d) else [])) ∧
  (∀ d, aliveIn st d = true → aliveIn out.1 d = false → ∃ c ∈ cs, rank d ≤ rank c) ∧
  (∀ y z, childLink st y z → aliveIn out.1 y = true → aliveIn out.1 z = true →
    childLink out.1 y z) ∧
  (∀ y z, childLink st y z → aliveIn out.1 y = false → aliveIn out.1 z = false) ∧
  (∀ c ∈ cs, aliveIn out.1 c = false)

/-! ### Concrete fixtures used by witnesses and counterexamples -/

/-- A one-node heap: root object `1`, tagged to scope `"i"`, one field
`"k" = 0`. -/
def exHeap : Heap :=
  [(1, { fields := [("k", Val.numV 0)], meta := { rootProxy := some 1, instanceId := some "i" } })]

/-- A plugin whose `beforeChange` always returns exactly `false`. -/
def vetoPlugin : Plugin :=
  { id := "veto", beforeChange := some (fun _ _ _ _ => .ok (Val.boolV false)) }

/-- A plugin whose `transformGet` always throws. -/
def throwingTransformGet : Plugin :=
  { id := "boom", transformGet := some (fun _ _ _ => .exn) }

/-- An observing plugin with only `onGet`. -/
def obsPlugin : Plugin := { id := "obs", onGet := some (fun _ _ _ => .ok ()) }

/-- A `transformGet` plugin doubling numeric values (Scenario A). -/
def dblPlugin : Plugin :=
  { id := "dbl", transformGet := some (fun _ v _ =>
      match v with
      | Val.numV n => .ok (Val.numV (2 * n))
      | _ => .ok Val.undef) }

/-- A plugin whose raw-read hook always throws. -/
def rawThrower : Plugin :=
  { id := "rawboom", onGetRaw := some (fun _ _ _ _ => .exn) }

/-- The parent scope's `"logger"` descriptor. -/
def parentLogger : Plugin := { id := "logger", name := some "parent" }

/-- The child scope's `"logger"` descriptor. -/
def childLogger : Plugin := { id := "logger", name := some "child" }

/-- A parent scope `"p"` with child `"c"`, each owning its own
`"logger"` plugin. -/
def twoScopeSt : EngineState :=
  { regs :=
      [("p", { id := "p", plugins := [parentLogger], children := ["c"] }),
       ("c", { id := "c", parentId := some "p", plugins := [childLogger] })] }

/-- A plugin with an `onDispose` hook, for disposal traces. -/
def disposablePlugin : Plugin :=
  { id := "d", onDispose := some (fun _ => .ok ()) }

/-- An old descriptor for id `"x"` carrying an `onDispose` hook. -/
def pOldX : Plugin := { id := "x", onDispose := some (fun _ => .ok ()) }

/-- A replacement descriptor for id `"x"` carrying `onInit` and
`onAttach` hooks. -/
def pNewX : Plugin :=
  { id := "x", onInit := some (fun _ => .ok ()), onAttach := some (fun _ => .ok ()) }

/-- A state with `pOldX` registered both globally and in scope `"i"`. -/
def reregSt : EngineState :=
  { globalPlugins := [pOldX], regs := [("i", { id := "i", plugins := [pOldX] })] }

/-- Parent `"p"` and child `"c"`; the child owns `disposablePlugin`. -/
def disposeFixtureSt : EngineState :=
  { regs :=
      [("p", { id := "p", children := ["c"] }),
       ("c", { id := "c", parentId := some "p", plugins := [disposablePlugin] })] }

/-- A rank function witnessing the acyclicity of `disposeFixtureSt`'s
two-scope hierarchy: the parent sits above the child. -/
def fixtureRank : String → Nat := fun x => if x = "p" then 1 else 0

/-! ## C5 — zero plugins: refinement of the bare substrate -/

/-- Per the spec's words (P7): the read as performed "with the plugin
system absent" — the substrate's default read, returning the raw value
and leaving the state untouched. -/
def pluginFreeRead (h : Heap) (oid : Nat) (prop : String) : Val × Heap :=
  (rawGet h oid prop, h)

/-- Per the spec's words (P7): the write with the plugin system
absent. -/
def pluginFreeWrite (h : Heap) (oid : Nat) (prop : String) (v : Val) : Heap × Bool :=
  rawSet h oid prop v

/-- Per the spec's words (P7): the delete with the plugin system
absent. -/
def pluginFreeDelete (h : Heap) (oid : Nat) (prop : String) : Heap × Bool :=
  rawDelete h oid prop

/-- C5: with no plugins registered anywhere (empty global registry and
no live instance scopes), every read, write and delete through the
installed traps is observably identical — same result, same state, no
hook activity — to the same operation with the plugin system absent. -/
theorem no_plugins_refines_substrate (st : EngineState) (h : Heap) (oid : Nat)
    (prop : String) (v : Val) (init : Bool)
    (hg : st.globalPlugins.length = 0) (hi : aliveCount st = 0) :
    handlerGet st h oid prop init =
      .ok ((pluginFreeRead h oid prop).1, (pluginFreeRead h oid prop).2, []) ∧
    handlerSet st h oid prop v init =
      ((pluginFreeWrite h oid prop v).2, (pluginFreeWrite h oid prop v).1, []) ∧
    handlerDelete st h oid prop init =
      ((pluginFreeDelete h oid prop).2, (pluginFreeDelete h oid prop).1, []) := by
  refine ⟨?_, ?_, ?_⟩ <;>
    simp [handlerGet, handlerSet, handlerDelete, pluginFreeRead, pluginFreeWrite,
      pluginFreeDelete, hg, hi]

/-- Witness for C5 at a concrete state and heap. -/
theorem no_plugins_refines_substrate_witness :
    handlerGet {} [(1, { fields := [("k", Val.numV 7)] })] 1 "k" false =
      .ok (Val.numV 7, [(1, { fields := [("k", Val.numV 7)] })], []) := by
  have := no_plugins_refines_substrate {} [(1, { fields := [("k", Val.numV 7)] })]
    1 "k" Val.undef false rfl rfl
  simpa [pluginFreeRead, rawGet, heapFind, fieldsGet] using this.1

/-! ## C6 — metadata propagation on reads -/

theorem heapFind_heapUpdate_self (h : Heap) (oid : Nat) (f : Node → Node) :
    heapFind (heapUpdate h oid f) oid = (heapFind h oid).map f := by
  induction h with
  | nil => simp [heapFind, heapUpdate]
  | cons e t ih =>
      by_cases he : e.1 = oid
      · simp [heapFind, heapUpdate, he]
      · simpa [heapFind, heapUpdate, he] using ih

/-- The heap returned by a successful pass through the slow `get` path
is exactly the metadata-propagated heap: no other step mutates state. -/
theorem handlerGetSlow_heap (st : EngineState) (h : Heap) (receiver : Nat)
    (prop : String) (init : Bool) (ps : List Plugin)
    (out : Val × Heap × List Event)
    (hok : handlerGetSlow st h receiver prop init ps = .ok out) :
    out.2.1 = metaPropagate h receiver prop (rawGet h receiver prop) := by
  simp only [handlerGetSlow] at hok
  split at hok
  · exact absurd hok (by simp)
  · split at hok
    · split at hok
      · cases hok; rfl
      · split at hok
        · cases hok; rfl
        · cases hok; rfl
    · cases hok; rfl

/-- C6 (amended): whenever the no-plugins fast path is not taken (at
least one global plugin or live instance scope exists) and the read
completes, a compound, not-yet-tagged result on a tagged node is tagged
with the inherited root and scope and with path = parent path + key.
The propagation is NOT unconditional: with zero plugins and zero live
scopes the fast path returns before it (see the counterexample). -/
theorem metadata_propagation_on_read (st : EngineState) (h : Heap) (receiver : Nat)
    (prop : String) (init : Bool) (roid : Nat) (nd : Node) (r : Nat) (iid : String)
    (hfast : ¬(st.globalPlugins.length = 0 ∧ aliveCount st = 0))
    (hres : rawGet h receiver prop = Val.ref roid)
    (hne : roid ≠ receiver)
    (hroot : (nodeMeta h receiver).rootProxy = some r)
    (hiid : (nodeMeta h receiver).instanceId = some iid) (hiid' : iid ≠ "")
    (huntag : (nodeMeta h roid).rootProxy = none)
    (hnode : heapFind h roid = some nd)
    (out : Val × Heap × List Event)
    (hok : handlerGet st h receiver prop init = .ok out) :
    (nodeMeta out.2.1 roid).rootProxy = some r ∧
    (nodeMeta out.2.1 roid).instanceId = some iid ∧
    (nodeMeta out.2.1 roid).path = some ((nodeMeta h receiver).path.getD [] ++ [prop]) := by
  rw [handlerGet, if_neg hfast] at hok
  have hheap := handlerGetSlow_heap st h receiver prop init _ out hok
  simp only [metaPropagate, hres, hroot, huntag, hne, if_false, Option.isSome_some,
    Option.isSome_none, if_true, Bool.false_eq_true, reduceIte] at hheap
  rw [hheap]
  have hupd : ∀ f : Node → Node, nodeMeta (heapUpdate h roid f) roid = (f nd).meta := by
    intro f
    simp [nodeMeta, heapFind_heapUpdate_self, hnode]
  rw [hupd]
  refine ⟨?_, ?_, ?_⟩ <;> simp [addMetaData, hiid, hiid']

/-- Witness for C6 at a concrete one-plugin state. -/
theorem metadata_propagation_on_read_witness :
    (nodeMeta
      ((handlerGet
        { globalPlugins := [{ id := "p" }] }
        [(1, { fields := [("child", Val.ref 2)],
               meta := { rootProxy := some 1, instanceId := some "i" } }),
         (2, {})]
        1 "child" false).toOption.getD (Val.undef, [], [])).2.1 2).path =
      some ["child"] := by
  have := metadata_propagation_on_read
    { globalPlugins := [{ id := "p" }] }
    [(1, { fields := [("child", Val.ref 2)],
           meta := { rootProxy := some 1, instanceId := some "i" } }),
     (2, {})]
    1 "child" false 2 {} 1 "i"
    (by simp) (by rfl) (by decide)
    (by rfl) (by rfl) (by decide) (by rfl) (by rfl)
    ((Val.ref 2,
      [(1, { fields := [("child", Val.ref 2)],
             meta := { rootProxy := some 1, instanceId := some "i" } }),
       (2, { meta := { rootProxy := some 1, instanceId := some "i",
                       path := some ["child"] } })], []))
    (by rfl)
  simpa using this.2.2

/-- Counterexample for C6 as stated: with zero plugins registered
anywhere (empty global registry, only a disposed instance scope), a
read of a compound, untagged child of a tagged node takes the
fast path and performs NO metadata propagation — the child stays
untagged. -/
theorem metadata_propagation_not_unconditional :
    handlerGet
      { regs := [("i", { id := "i", isDisposed := true })] }
      [(1, { fields := [("child", Val.ref 2)],
             meta := { rootProxy := some 1, instanceId := some "i" } }),
       (2, {})]
      1 "child" false =
      .ok (Val.ref 2,
        [(1, { fields := [("child", Val.ref 2)],
               meta := { rootProxy := some 1, instanceId := some "i" } }),
         (2, {})], []) ∧
    (nodeMeta
      [(1, { fields := [("child", Val.ref 2)],
             meta := { rootProxy := some 1, instanceId := some "i" } }),
       (2, ({} : Node))] 2).rootProxy = none := by
  constructor
  · rfl
  · rfl

/-! ## C2 — the beforeChange veto protocol -/

/-- Short-circuit shape of the veto loop: when every earlier plugin's
`beforeChange` does not return exactly `false` and plugin `p`'s does,
the loop stops at `p`: vetoed, with no event from any later plugin. -/
theorem runBeforeChangeLoop_append_veto (fp : List String) (nv pv : Val) (root : Nat)
    (p : Plugin) (bs : List Plugin)
    (pf : List String → Val → Val → Nat → HookRes Val)
    (hpf : p.beforeChange = some pf)
    (hveto : pf fp nv pv root = .ok (Val.boolV false)) :
    ∀ as : List Plugin,
      (∀ q ∈ as, ∀ f, q.beforeChange = some f →
        f fp nv pv root ≠ .ok (Val.boolV false)) →
      runBeforeChangeLoop fp nv pv root (as ++ p :: bs) =
        (true, (runBeforeChangeLoop fp nv pv root as).2 ++
          [Event.beforeChange p.id fp nv pv]) := by
  intro as
  induction as with
  | nil =>
      intro _
      simp [runBeforeChangeLoop, hpf, hveto]
  | cons a as ih =>
      intro hpass
      have ha := hpass a (by simp)
      have has : ∀ q ∈ as, ∀ f, q.beforeChange = some f →
          f fp nv pv root ≠ .ok (Val.boolV false) := by
        intro q hq
        exact hpass q (by simp [hq])
      simp only [List.cons_append, runBeforeChangeLoop]
      cases haf : a.beforeChange with
      | none => simpa [haf] using ih has
      | some f =>
          cases hres : f fp nv pv root with
          | exn => simp [haf, hres, ih has]
          | ok v =>
              have hne : v ≠ Val.boolV false := by
                intro hv
                exact ha f haf (by rw [hres, hv])
              simp [haf, hres, hne, ih has]

/-- C2 (amended): past initial construction on a tagged node, a
`beforeChange` hook returning exactly `false` aborts WRITE and REMOVE
alike: state is not mutated, later veto hooks and `afterChange` hooks
do not run.  The WRITE trap reports success (`true`) to the caller, but
the REMOVE trap — contrary to the claim's "identical protocol" —
reports failure (`false`). -/
theorem beforeChange_veto_protocol (h : Heap) (receiver : Nat) (prop : String)
    (value : Val) (root : Nat) (as bs : List Plugin) (p : Plugin)
    (fp : List String) (tv pv : Val)
    (pf : List String → Val → Val → Nat → HookRes Val)
    (hfp : (nodeMeta h receiver).path.getD [] ++ [prop] = fp)
    (hprev : rawGet h receiver prop = pv)
    (htv : (runTransformSetLoop fp root (as ++ p :: bs) value).1 = tv)
    (hpf : p.beforeChange = some pf)
    (hvetoW : pf fp tv pv root = .ok (Val.boolV false))
    (hvetoD : pf fp Val.undef pv root = .ok (Val.boolV false))
    (hpassW : ∀ q ∈ as, ∀ f, q.beforeChange = some f →
      f fp tv pv root ≠ .ok (Val.boolV false))
    (hpassD : ∀ q ∈ as, ∀ f, q.beforeChange = some f →
      f fp Val.undef pv root ≠ .ok (Val.boolV false)) :
    handlerSetSlow h receiver prop value root (as ++ p :: bs) =
      (true, h, (runTransformSetLoop fp root (as ++ p :: bs) value).2 ++
        ((runBeforeChangeLoop fp tv pv root as).2 ++
          [Event.beforeChange p.id fp tv pv])) ∧
    handlerDeleteSlow h receiver prop root (as ++ p :: bs) =
      (false, h, (runBeforeChangeLoop fp Val.undef pv root as).2 ++
        [Event.beforeChange p.id fp Val.undef pv]) := by
  constructor
  · have hb := runBeforeChangeLoop_append_veto fp tv pv root p bs pf hpf hvetoW as hpassW
    simp only [handlerSetSlow, hfp, hprev, htv, hb]
    simp
  · have hb := runBeforeChangeLoop_append_veto fp Val.undef pv root p bs pf hpf hvetoD as hpassD
    simp only [handlerDeleteSlow, hfp, hprev, hb]
    simp

/-- Witness for the amended C2 at a concrete vetoing plugin. -/
theorem beforeChange_veto_protocol_witness :
    handlerSetSlow exHeap 1 "k" (Val.numV 5) 1 [vetoPlugin] =
      (true, exHeap, [Event.beforeChange "veto" ["k"] (Val.numV 5) (Val.numV 0)]) ∧
    handlerDeleteSlow exHeap 1 "k" 1 [vetoPlugin] =
      (false, exHeap, [Event.beforeChange "veto" ["k"] Val.undef (Val.numV 0)]) := by
  have := beforeChange_veto_protocol exHeap 1 "k" (Val.numV 5) 1 [] [] vetoPlugin
    ["k"] (Val.numV 5) (Val.numV 0)
    (fun _ _ _ _ => .ok (Val.boolV false))
    (by rfl) (by rfl) (by rfl) (by rfl) (by rfl) (by rfl)
    (by intro q hq; simp at hq) (by intro q hq; simp at hq)
  simpa [runTransformSetLoop, runBeforeChangeLoop] using this

/-- Counterexample for C2 as stated: with the same always-vetoing
plugin, the WRITE trap reports success (`true`) while the REMOVE trap
reports failure (`false`) — the two protocols are not identical. -/
theorem delete_veto_reports_failure :
    (handlerSetSlow exHeap 1 "k" (Val.numV 5) 1 [vetoPlugin]).1 = true ∧
    (handlerDeleteSlow exHeap 1 "k" 1 [vetoPlugin]).1 = false := by
  exact ⟨rfl, rfl⟩

/-! ## C4 — read-path hook order and transform chaining -/

theorem runOnGetLoop_events (fp : List String) (v : Val) (root : Nat) :
    ∀ ps : List Plugin,
      (runOnGetLoop fp v root ps).filter Event.isOnGet =
        ps.filterMap (fun p =>
          if p.onGet.isSome then some (Event.onGet p.id fp v) else none)
  | [] => by simp [runOnGetLoop]
  | p :: ps => by
      cases hg : p.onGet with
      | none =>
          simpa [runOnGetLoop, hg] using runOnGetLoop_events fp v root ps
      | some f =>
          cases hr : f fp v root with
          | ok u =>
              simpa [runOnGetLoop, hg, hr, Event.isOnGet] using
                runOnGetLoop_events fp v root ps
          | exn =>
              simpa [runOnGetLoop, hg, hr, Event.isOnGet] using
                runOnGetLoop_events fp v root ps

theorem runTransformGetLoop_snoc (fp : List String) (root : Nat) (p : Plugin) :
    ∀ (ps : List Plugin) (v : Val),
      (runTransformGetLoop fp root (ps ++ [p]) v).1 =
        transformGetStep fp root p ((runTransformGetLoop fp root ps v).1)
  | [], v => by
      cases hg : p.transformGet with
      | none => simp [runTransformGetLoop, transformGetStep, hg]
      | some f =>
          cases hr : f fp v root with
          | ok tv => simp [runTransformGetLoop, transformGetStep, hg, hr]
          | exn => simp [runTransformGetLoop, transformGetStep, hg, hr]
  | a :: ps, v => by
      cases hg : a.transformGet with
      | none =>
          simpa [runTransformGetLoop, hg] using runTransformGetLoop_snoc fp root p ps v
      | some f =>
          cases hr : f fp v root with
          | ok tv =>
              simpa [runTransformGetLoop, hg, hr] using
                runTransformGetLoop_snoc fp root p ps (if tv = Val.undef then v else tv)
          | exn =>
              simpa [runTransformGetLoop, hg, hr] using
                runTransformGetLoop_snoc fp root p ps v

theorem runTransformSetLoop_snoc (fp : List String) (root : Nat) (p : Plugin) :
    ∀ (ps : List Plugin) (v : Val),
      (runTransformSetLoop fp root (ps ++ [p]) v).1 =
        transformSetStep fp root p ((runTransformSetLoop fp root ps v).1)
  | [], v => by
      cases hg : p.transformSet with
      | none => simp [runTransformSetLoop, transformSetStep, hg]
      | some f =>
          cases hr : f fp v root with
          | ok tv => simp [runTransformSetLoop, transformSetStep, hg, hr]
          | exn => simp [runTransformSetLoop, transformSetStep, hg, hr]
  | a :: ps, v => by
      cases hg : a.transformSet with
      | none =>
          simpa [runTransformSetLoop, hg] using runTransformSetLoop_snoc fp root p ps v
      | some f =>
          cases hr : f fp v root with
          | ok tv =>
              simpa [runTransformSetLoop, hg, hr] using
                runTransformSetLoop_snoc fp root p ps (if tv = Val.undef then v else tv)
          | exn =>
              simpa [runTransformSetLoop, hg, hr] using
                runTransformSetLoop_snoc fp root p ps v

/-- The value a completed read with high-level hooks returns is the
transform pipeline's output on the raw result. -/
theorem handlerGetSlow_value (st : EngineState) (h : Heap) (receiver : Nat)
    (prop : String) (ps : List Plugin) (root : Nat) (iid : String)
    (out : Val × Heap × List Event)
    (hroot : (nodeMeta h receiver).rootProxy = some root)
    (hiid : (nodeMeta h receiver).instanceId = some iid) (hiid' : iid ≠ "")
    (hhigh : ps.any (fun p => p.onGet.isSome || p.transformGet.isSome) = true)
    (hok : handlerGetSlow st h receiver prop false ps = .ok out) :
    out.1 = (runTransformGetLoop ((nodeMeta h receiver).path.getD [] ++ [prop])
      root ps (rawGet h receiver prop)).1 := by
  simp only [handlerGetSlow] at hok
  split at hok
  · exact absurd hok (by simp)
  · simp only [hroot, hiid, hiid', hhigh] at hok
    simp only [Bool.false_eq_true, false_or, if_false, if_true, reduceIte] at hok
    cases hok
    rfl

/-- C4: for a resolved chain, the `onGet` observation hooks fire in
chain order, each with the same full path and the raw value; the
`transformGet` stage is a left-to-right pipeline in which each plugin's
defined return value replaces the value seen by the next plugin
(last-applied-wins), its output being the value the read returns; and
`transformSet` chains the same way on writes. -/
theorem read_dispatch_order_and_chaining (fp : List String) (v : Val) (root : Nat)
    (ps : List Plugin) (p : Plugin) (st : EngineState) (h : Heap) (receiver : Nat)
    (prop : String) (iid : String) (out : Val × Heap × List Event)
    (hroot : (nodeMeta h receiver).rootProxy = some root)
    (hiid : (nodeMeta h receiver).instanceId = some iid) (hiid' : iid ≠ "")
    (hhigh : ps.any (fun q => q.onGet.isSome || q.transformGet.isSome) = true)
    (hok : handlerGetSlow st h receiver prop false ps = .ok out) :
    (runOnGetLoop fp v root ps).filter Event.isOnGet =
      ps.filterMap (fun q =>
        if q.onGet.isSome then some (Event.onGet q.id fp v) else none) ∧
    (runTransformGetLoop fp root [] v).1 = v ∧
    (runTransformGetLoop fp root (ps ++ [p]) v).1 =
      transformGetStep fp root p ((runTransformGetLoop fp root ps v).1) ∧
    (runTransformSetLoop fp root [] v).1 = v ∧
    (runTransformSetLoop fp root (ps ++ [p]) v).1 =
      transformSetStep fp root p ((runTransformSetLoop fp root ps v).1) ∧
    out.1 = (runTransformGetLoop ((nodeMeta h receiver).path.getD [] ++ [prop])
      root ps (rawGet h receiver prop)).1 :=
  ⟨runOnGetLoop_events fp v root ps, rfl,
    runTransformGetLoop_snoc fp root p ps v, rfl,
    runTransformSetLoop_snoc fp root p ps v,
    handlerGetSlow_value st h receiver prop ps root iid out hroot hiid hiid' hhigh hok⟩

/-- Witness for C4: a doubling `transformGet` on `["k"]` (Scenario A
shape) after an observing plugin: the chained pipeline yields `10` from
raw `5`, and the observation events are as predicted. -/
theorem read_dispatch_order_and_chaining_witness :
    (runOnGetLoop ["k"] (Val.numV 5) 1 [obsPlugin]).filter Event.isOnGet =
      [Event.onGet "obs" ["k"] (Val.numV 5)] ∧
    (runTransformGetLoop ["k"] 1 ([obsPlugin] ++ [dblPlugin]) (Val.numV 5)).1 =
      Val.numV 10 := by
  have h := read_dispatch_order_and_chaining ["k"] (Val.numV 5) 1
    [obsPlugin] dblPlugin { globalPlugins := [obsPlugin] } exHeap 1 "k" "i"
    (Val.numV 0, exHeap, [Event.onGet "obs" ["k"] (Val.numV 0)])
    (by rfl) (by rfl) (by decide) (by rfl) (by rfl)
  constructor
  · rw [h.1]; rfl
  · rw [h.2.2.1]; rfl

/-! ## C7 — re-registration replaces in place -/

theorem assocUpdate_find (i : String) (f : Reg → Reg) (j : String)
    (l : List (String × Reg)) :
    ((l.map (fun e => if e.1 = i then (e.1, f e.2) else e)).find?
        (fun e => e.1 = j)).map (fun e => e.2) =
      if j = i then
        (((l.find? (fun e => e.1 = i)).map (fun e => e.2)).map f)
      else (l.find? (fun e => e.1 = j)).map (fun e => e.2) := by
  rw [List.find?_map]
  have hpg : ((fun e : String × Reg => decide (e.1 = j)) ∘
      (fun e => if e.1 = i then (e.1, f e.2) else e)) =
      fun e : String × Reg => decide (e.1 = j) := by
    funext e
    by_cases h : e.1 = i <;> simp [h]
  rw [hpg]
  by_cases hj : j = i
  · subst hj
    cases hfind : l.find? (fun e => decide (e.1 = j)) with
    | none => simp
    | some e =>
        have he : e.1 = j := by
          have := List.find?_some hfind
          exact of_decide_eq_true this
        simp [he]
  · cases hfind : l.find? (fun e => decide (e.1 = j)) with
    | none => simp [hj]
    | some e =>
        have he : e.1 = j := by
          have := List.find?_some hfind
          exact of_decide_eq_true this
        have hne : ¬ e.1 = i := by
          rw [he]
          exact hj
        simp [hj, hne]

theorem findReg_updateReg (st : EngineState) (i : String) (f : Reg → Reg)
    (j : String) :
    findReg (updateReg st i f) j =
      if j = i then (findReg st i).map f else findReg st j := by
  simpa [findReg, updateReg] using assocUpdate_find i f j st.regs

/-- C7: registering a plugin whose id is already present in a scope's
own list replaces the old descriptor in place at the same position; the
registration's only lifecycle activity is the new descriptor's
`onAttach` — no `onDispose` of the old and no `onInit` of the new fire.
This holds for the global scope and for instance scopes alike. -/
theorem reregistration_replaces_in_place (st : EngineState) (p : Plugin) (i : Nat)
    (iid : String) (reg : Reg) (j : Nat)
    (hg : st.globalPlugins.findIdx? (fun q => q.id = p.id) = some i)
    (hr : findReg st iid = some reg) (hd : reg.isDisposed = false)
    (hj : reg.plugins.findIdx? (fun q => q.id = p.id) = some j) :
    (useGlobalOne st p).1.globalPlugins = st.globalPlugins.set i p ∧
    (useGlobalOne st p).2 = attachEvts p ∧
    (useInstanceOne st iid p).2 = attachEvts p ∧
    (findReg (useInstanceOne st iid p).1 iid).map Reg.plugins =
      some (reg.plugins.set j p) ∧
    (findReg (useInstanceOne st iid p).1 iid).map Reg.isDisposed = some false ∧
    (∀ e ∈ attachEvts p,
      e = Event.onAttach p.id ∨ e = Event.hookError p.id "onAttach") := by
  refine ⟨?_, ?_, ?_, ?_, ?_, ?_⟩
  · simp [useGlobalOne, hg]
  · simp [useGlobalOne, hg]
  · simp [useInstanceOne, hr, hj]
  · simp only [useInstanceOne, hr, hj]
    by_cases hraw : p.onGetRaw.isSome <;>
      simp [hraw, findReg_updateReg, hr, hd]
  · simp only [useInstanceOne, hr, hj]
    by_cases hraw : p.onGetRaw.isSome <;>
      simp [hraw, findReg_updateReg, hr, hd]
  · intro e he
    simp only [attachEvts] at he
    cases ha : p.onAttach with
    | none => simp [ha] at he
    | some f =>
        simp only [ha] at he
        cases hres : f () with
        | ok u =>
            simp only [hres] at he
            simp at he
            simp [he]
        | exn =>
            simp only [hres] at he
            simp at he
            rcases he with h1 | h1 <;> simp [h1]

/-- Witness for C7: replacing id `"x"` in both the global scope and an
instance scope fires only the new `onAttach`. -/
theorem reregistration_replaces_in_place_witness :
    (useGlobalOne reregSt pNewX).1.globalPlugins = [pOldX].set 0 pNewX ∧
    (useGlobalOne reregSt pNewX).2 = attachEvts pNewX ∧
    (findReg (useInstanceOne reregSt "i" pNewX).1 "i").map Reg.plugins =
      some ([pOldX].set 0 pNewX) := by
  have h := reregistration_replaces_in_place reregSt pNewX 0 "i"
    { id := "i", plugins := [pOldX] } 0
    (by rfl) (by rfl) (by rfl) (by rfl)
  exact ⟨h.1, h.2.1, h.2.2.2.1⟩

/-! ## C3 — effective chain resolution -/

theorem mapGet_not_disposed (st : EngineState) (x : String) (r : Reg)
    (hx : mapGet st x = some r) : r.isDisposed = false := by
  unfold mapGet at hx
  cases hfr : findReg st x with
  | none => rw [hfr] at hx; exact absurd hx (by simp)
  | some r' =>
      rw [hfr] at hx
      cases hb : r'.isDisposed with
      | true => simp [hb] at hx
      | false =>
          simp [hb] at hx
          rw [← hx]
          exact hb

theorem collectOwn_eq_flatten (st : EngineState) :
    ∀ m : List String, collectOwn st m = (m.map (ownPlugins st)).flatten
  | [] => by simp [collectOwn]
  | x :: m => by
      cases hx : mapGet st x with
      | none =>
          simpa [collectOwn, ownPlugins, hx] using collectOwn_eq_flatten st m
      | some r =>
          have hd := mapGet_not_disposed st x r hx
          simpa [collectOwn, ownPlugins, hx, hd] using collectOwn_eq_flatten st m

theorem hierWalk_of_upChain (st : EngineState) :
    ∀ (t : List String) (a : String), upChain st (a :: t) →
      ∀ fuel, (a :: t).length ≤ fuel →
        hierWalk st fuel (some a) = (a :: t).reverse
  | [], a => by
      intro hup fuel hf
      obtain ⟨r, hr, hpar⟩ := hup
      match fuel, hf with
      | fuel + 1, _ => simp [hierWalk, hr, hpar]
  | b :: t, a => by
      intro hup fuel hf
      obtain ⟨⟨r, hr, hpar⟩, hup'⟩ := hup
      match fuel, hf with
      | fuel + 1, hf =>
          have hf' : (b :: t).length ≤ fuel := by
            simpa using Nat.lt_succ_iff.mp (by simpa using hf)
          rw [hierWalk, hr]
          dsimp only
          rw [hpar, hierWalk_of_upChain st t b hup' fuel hf']
          simp

/-- C3: the effective chain for a scope `S` whose parent chain (bottom
up) is `S :: rest` is the global plugins in registration order followed
by each ancestor scope's own plugins from the topmost instance ancestor
down to `S`; in particular every global plugin precedes every instance
plugin regardless of depth. -/
theorem effective_chain_resolution (st : EngineState) (S : String)
    (rest : List String)
    (hup : upChain st (S :: rest))
    (hlen : (S :: rest).length ≤ st.regs.length + 1) :
    buildInstancePluginChain st S =
      st.globalPlugins ++ ((S :: rest).reverse.map (ownPlugins st)).flatten ∧
    (buildInstancePluginChain st S).take st.globalPlugins.length =
      st.globalPlugins ∧
    (buildInstancePluginChain st S).drop st.globalPlugins.length =
      ((S :: rest).reverse.map (ownPlugins st)).flatten := by
  have hmain : buildInstancePluginChain st S =
      st.globalPlugins ++ ((S :: rest).reverse.map (ownPlugins st)).flatten := by
    rw [buildInstancePluginChain,
      hierWalk_of_upChain st rest S hup (st.regs.length + 1) hlen,
      collectOwn_eq_flatten]
  refine ⟨hmain, ?_, ?_⟩ <;> rw [hmain] <;> simp

/-- Witness for C3 on the two-scope fixture: the child's chain is the
parent's plugins then the child's, after the (empty) global list. -/
theorem effective_chain_resolution_witness :
    buildInstancePluginChain twoScopeSt "c" =
      twoScopeSt.globalPlugins ++
        ((["c", "p"].reverse.map (ownPlugins twoScopeSt)).flatten) := by
  exact (effective_chain_resolution twoScopeSt "c" ["p"]
    (by exact ⟨⟨_, rfl, rfl⟩, ⟨_, rfl, rfl⟩⟩) (by simp [twoScopeSt])).1

/-! ## C9 — same plugin id in parent and child scope -/

/-- C9 (amended): when a parent scope and its child both register a
plugin with the same id, both descriptors sit in the child's resolved
chain with the parent's strictly before the child's (so both execute,
parent's first, during dispatch); but id-based property access on the
child handle returns the FIRST matching descriptor of the chain — the
parent's, not the child's. -/
theorem same_id_parent_child (st : EngineState) (pid cid idstr : String)
    (preg creg : Reg) (pP pC : Plugin)
    (hp : mapGet st pid = some preg) (hpp : preg.parentId = none)
    (hc : mapGet st cid = some creg) (hcp : creg.parentId = some pid)
    (hlen : 2 ≤ st.regs.length + 1)
    (hgid : ∀ g ∈ st.globalPlugins, g.id ≠ idstr)
    (hfindP : preg.plugins.find? (fun p => p.id = idstr) = some pP)
    (hfindC : creg.plugins.find? (fun p => p.id = idstr) = some pC)
    (hres : idstr ∉ reservedFactoryProps)
    (hne : pP ≠ pC) :
    buildInstancePluginChain st cid =
      st.globalPlugins ++ preg.plugins ++ creg.plugins ∧
    (∃ l1 l2 l3, buildInstancePluginChain st cid =
      l1 ++ pP :: (l2 ++ pC :: l3)) ∧
    instanceGetProp st cid idstr = some pP ∧
    instanceGetProp st cid idstr ≠ some pC := by
  have hchain : buildInstancePluginChain st cid =
      st.globalPlugins ++ preg.plugins ++ creg.plugins := by
    have h := (effective_chain_resolution st cid [pid]
      (⟨⟨creg, hc, hcp⟩, ⟨preg, hp, hpp⟩⟩) (by simpa using hlen)).1
    rw [h]
    simp [ownPlugins, hp, hc, List.append_assoc]
  have hmemP : pP ∈ preg.plugins := List.mem_of_find?_eq_some hfindP
  have hmemC : pC ∈ creg.plugins := List.mem_of_find?_eq_some hfindC
  obtain ⟨l1, l2, hl⟩ := List.append_of_mem hmemP
  obtain ⟨m1, m2, hm⟩ := List.append_of_mem hmemC
  have hgp : instanceGetProp st cid idstr = some pP := by
    rw [instanceGetProp, if_neg hres]
    have hu : getApplicablePluginsUncached st (some cid) =
        st.globalPlugins ++ preg.plugins ++ creg.plugins := by
      rw [getApplicablePluginsUncached]
      rw [hc]
      exact hchain
    rw [hu]
    have hgnone : st.globalPlugins.find? (fun p => p.id = idstr) = none := by
      rw [List.find?_eq_none]
      intro x hx
      simpa using hgid x hx
    rw [List.append_assoc, List.find?_append, hgnone, List.find?_append, hfindP]
    rfl
  refine ⟨hchain, ?_, hgp, ?_⟩
  · refine ⟨st.globalPlugins ++ l1, l2 ++ m1, m2, ?_⟩
    rw [hchain, hl, hm]
    simp
  · rw [hgp]
    intro hcontra
    exact hne (by injection hcontra)

/-- Counterexample for C9 as stated: on the two-scope fixture (parent
`"p"` and child `"c"` each owning a `"logger"`), property access on the
child handle yields the PARENT's descriptor, not the child's. -/
theorem child_handle_returns_parent_descriptor :
    (instanceGetProp twoScopeSt "c" "logger").map Plugin.name =
      some (some "parent") ∧
    (instanceGetProp twoScopeSt "c" "logger").map Plugin.name ≠
      some (some "child") := by
  exact ⟨rfl, by decide⟩

/-- Witness for the amended C9 on the two-scope fixture. -/
theorem same_id_parent_child_witness :
    buildInstancePluginChain twoScopeSt "c" = [parentLogger, childLogger] ∧
    instanceGetProp twoScopeSt "c" "logger" = some parentLogger := by
  have h := same_id_parent_child twoScopeSt "p" "c" "logger"
    { id := "p", plugins := [parentLogger], children := ["c"] }
    { id := "c", parentId := some "p", plugins := [childLogger] }
    parentLogger childLogger
    (by rfl) (by rfl) (by rfl) (by rfl) (by simp [twoScopeSt])
    (by intro g hg; simp [twoScopeSt] at hg)
    (by rfl) (by rfl) (by decide)
    (by intro he; exact absurd (congrArg Plugin.name he) (by decide))
  refine ⟨?_, h.2.2.1⟩
  simpa [twoScopeSt, parentLogger, childLogger] using h.1

/-! ## C10 — operations on state trees of a disposed scope -/

theorem runOnGetRawLoop_all_none (t : Nat) (pr : String) (r : Nat) (v : Val) :
    ∀ ps : List Plugin, (∀ p ∈ ps, p.onGetRaw = none) →
      runOnGetRawLoop t pr r v ps = .ok []
  | [] => by intro _; rfl
  | p :: ps => by
      intro hall
      have hp := hall p (by simp)
      have hrest : ∀ q ∈ ps, q.onGetRaw = none := fun q hq => hall q (by simp [hq])
      simpa [runOnGetRawLoop, hp] using runOnGetRawLoop_all_none t pr r v ps hrest

/-- C10: once a scope's registry entry has been removed (its disposal),
a state tree created under it beforehand remains operable — plugin
resolution for its tagged nodes falls back to exactly the global plugin
list, the write and delete traps dispatch against that global chain,
and a read completes normally (here: when no global raw-read hook is
registered, so that the unprotected raw loop cannot throw). -/
theorem disposed_scope_falls_back_to_global (st : EngineState) (h : Heap)
    (oid : Nat) (iid : String) (prop : String) (v : Val) (init : Bool) (root : Nat)
    (hmeta : (nodeMeta h oid).instanceId = some iid) (hiid : iid ≠ "")
    (hdead : mapGet st iid = none)
    (hroot : (nodeMeta h oid).rootProxy = some root)
    (hfast : ¬(st.globalPlugins.length = 0 ∧ aliveCount st = 0))
    (hnoraw : ∀ p ∈ st.globalPlugins, p.onGetRaw = none) :
    getApplicablePlugins st h oid = st.globalPlugins ∧
    handlerSet st h oid prop v false =
      handlerSetSlow h oid prop v root st.globalPlugins ∧
    handlerDelete st h oid prop false =
      handlerDeleteSlow h oid prop root st.globalPlugins ∧
    (∃ out, handlerGet st h oid prop init = .ok out) := by
  have happ : getApplicablePlugins st h oid = st.globalPlugins := by
    rw [getApplicablePlugins, getApplicablePluginsMeta, hmeta]
    split
    · rename_i hcond
      simp [hcond.1] at hfast
      exact absurd hcond.2 hfast
    · simp [hiid, hdead]
  have hii : ¬ iid = "" := hiid
  refine ⟨happ, ?_, ?_, ?_⟩
  · rw [handlerSet, if_neg hfast]
    simp only [hroot, hmeta, hii, if_false, reduceIte, happ]
    simp
  · rw [handlerDelete]
    rw [if_neg hfast]
    simp only [hroot, hmeta, hii, if_false, reduceIte, happ]
    simp
  · by_cases hf : st.globalPlugins.length = 0 ∧ aliveCount st = 0
    · exact ⟨_, by rw [handlerGet, if_pos hf]⟩
    · rw [handlerGet, if_neg hf]
      simp only [handlerGetSlow, happ]
      have hok : (if st.globalRawHooksCount > 0 ∨
          (nodeMeta h oid).rawHooksCount.getD 0 > 0 then
          runOnGetRawLoop oid prop oid (rawGet h oid prop) st.globalPlugins
        else .ok []) = .ok [] := by
        split
        · exact runOnGetRawLoop_all_none oid prop oid (rawGet h oid prop)
            st.globalPlugins hnoraw
        · rfl
      rw [hok]
      simp only [hroot, hmeta]
      split
      all_goals try split
      all_goals exact ⟨_, rfl⟩

/-- Witness for C10: scope `"i"` is disposed (registry entry removed);
a read, a write and a delete on its pre-existing tree dispatch against
the global chain and complete. -/
theorem disposed_scope_falls_back_to_global_witness :
    getApplicablePlugins
      { globalPlugins := [obsPlugin],
        regs := [("i", { id := "i", isDisposed := true })] } exHeap 1 =
      [obsPlugin] ∧
    (∃ out, handlerGet
      { globalPlugins := [obsPlugin],
        regs := [("i", { id := "i", isDisposed := true })] } exHeap 1 "k" false =
      .ok out) := by
  have h := disposed_scope_falls_back_to_global
    { globalPlugins := [obsPlugin], regs := [("i", { id := "i", isDisposed := true })] }
    exHeap 1 "i" "k" (Val.numV 3) false 1
    (by rfl) (by decide) (by rfl) (by rfl)
    (by intro hcontra; simp [obsPlugin] at hcontra)
    (by intro p hp; rw [List.mem_singleton] at hp; rw [hp]; rfl)
  exact ⟨h.1, h.2.2.2⟩



/-! ## C1 — per-hook fault isolation -/

theorem removeHook_id (hk : HookName) (p : Plugin) : (removeHook hk p).id = p.id := by
  cases hk <;> rfl

theorem removeHook_onGetRaw (hk : HookName) (p : Plugin) (h : hk ≠ .onGetRaw) :
    (removeHook hk p).onGetRaw = p.onGetRaw := by
  cases hk <;> first | rfl | exact absurd rfl h

theorem removeHook_onGet (hk : HookName) (p : Plugin) (h : hk ≠ .onGet) :
    (removeHook hk p).onGet = p.onGet := by
  cases hk <;> first | rfl | exact absurd rfl h

theorem removeHook_transformGet (hk : HookName) (p : Plugin) (h : hk ≠ .transformGet) :
    (removeHook hk p).transformGet = p.transformGet := by
  cases hk <;> first | rfl | exact absurd rfl h

theorem removeHook_transformSet (hk : HookName) (p : Plugin) (h : hk ≠ .transformSet) :
    (removeHook hk p).transformSet = p.transformSet := by
  cases hk <;> first | rfl | exact absurd rfl h

theorem removeHook_beforeChange (hk : HookName) (p : Plugin) (h : hk ≠ .beforeChange) :
    (removeHook hk p).beforeChange = p.beforeChange := by
  cases hk <;> first | rfl | exact absurd rfl h

theorem removeHook_afterChange (hk : HookName) (p : Plugin) (h : hk ≠ .afterChange) :
    (removeHook hk p).afterChange = p.afterChange := by
  cases hk <;> first | rfl | exact absurd rfl h

theorem removeHook_onSubscribe (hk : HookName) (p : Plugin) (h : hk ≠ .onSubscribe) :
    (removeHook hk p).onSubscribe = p.onSubscribe := by
  cases hk <;> first | rfl | exact absurd rfl h

theorem removeHook_onSnapshot (hk : HookName) (p : Plugin) (h : hk ≠ .onSnapshot) :
    (removeHook hk p).onSnapshot = p.onSnapshot := by
  cases hk <;> first | rfl | exact absurd rfl h

theorem removeHook_canProxy (hk : HookName) (p : Plugin) (h : hk ≠ .canProxy) :
    (removeHook hk p).canProxy = p.canProxy := by
  cases hk <;> first | rfl | exact absurd rfl h

theorem removeHook_le_onGet (hk : HookName) (p : Plugin) :
    (removeHook hk p).onGet.isSome = true → p.onGet.isSome = true := by
  cases hk <;> simp [removeHook]

theorem removeHook_le_transformGet (hk : HookName) (p : Plugin) :
    (removeHook hk p).transformGet.isSome = true → p.transformGet.isSome = true := by
  cases hk <;> simp [removeHook]

theorem tracePurge_append (pid : String) (a b : List Event) :
    tracePurge pid (a ++ b) = tracePurge pid a ++ tracePurge pid b := by
  simp [tracePurge]

theorem tracePurge_cons_self (pid : String) (e : Event) (tr : List Event)
    (he : e.pluginId = some pid) :
    tracePurge pid (e :: tr) = tracePurge pid tr := by
  simp [tracePurge, he]

/-- The raw-read loop only inspects ids and `onGetRaw` hooks, so it is
unchanged when a different hook is removed from the middle plugin. -/
theorem runOnGetRawLoop_removeHook (t : Nat) (pr : String) (r : Nat) (v : Val)
    (hk : HookName) (p : Plugin) (bs : List Plugin) (hne : hk ≠ .onGetRaw) :
    ∀ as : List Plugin,
      runOnGetRawLoop t pr r v (as ++ p :: bs) =
        runOnGetRawLoop t pr r v (as ++ removeHook hk p :: bs)
  | [] => by
      simp only [List.nil_append, runOnGetRawLoop,
        removeHook_onGetRaw hk p hne, removeHook_id hk p]
  | a :: as => by
      have ih := runOnGetRawLoop_removeHook t pr r v hk p bs hne as
      have ih' : runOnGetRawLoop t pr r v (as.append (p :: bs)) =
          runOnGetRawLoop t pr r v (as.append (removeHook hk p :: bs)) := ih
      simp only [List.cons_append, runOnGetRawLoop]
      cases hA : a.onGetRaw with
      | none =>
          simp only [hA]
          exact ih
      | some f =>
          simp only [hA]
          cases hr2 : f t pr r v with
          | exn => simp only [hr2]
          | ok u =>
              simp only [hr2]
              rw [ih']

/-- A faulty (or removed) `onGet` hook in the middle of the chain does
not change what the other plugins' observation hooks record. -/
theorem runOnGetLoop_removeHook (fp : List String) (v : Val) (root : Nat)
    (hk : HookName) (p : Plugin) (bs : List Plugin)
    (hth : throwsAlways p hk) :
    ∀ as : List Plugin,
      tracePurge p.id (runOnGetLoop fp v root (as ++ p :: bs)) =
        tracePurge p.id (runOnGetLoop fp v root (as ++ removeHook hk p :: bs))
  | [] => by
      by_cases hcase : hk = .onGet
      · subst hcase
        obtain ⟨f, hf, hthrow⟩ := hth
        simp only [List.nil_append, runOnGetLoop, hf, hthrow, removeHook]
        rw [tracePurge_append]
        rw [tracePurge_cons_self p.id _ _ (by rfl),
          tracePurge_cons_self p.id _ _ (by rfl)]
        simp [tracePurge]
      · simp only [List.nil_append, runOnGetLoop,
          removeHook_onGet hk p hcase, removeHook_id hk p]
  | a :: as => by
      simp only [List.cons_append, runOnGetLoop]
      rw [tracePurge_append, tracePurge_append]
      congr 1
      exact runOnGetLoop_removeHook fp v root hk p bs hth as

/-- A faulty (or removed) `afterChange` hook in the middle of the chain
does not change what the other plugins' post-commit hooks record. -/
theorem runAfterChangeLoop_removeHook (fp : List String) (v : Val) (root : Nat)
    (hk : HookName) (p : Plugin) (bs : List Plugin)
    (hth : throwsAlways p hk) :
    ∀ as : List Plugin,
      tracePurge p.id (runAfterChangeLoop fp v root (as ++ p :: bs)) =
        tracePurge p.id (runAfterChangeLoop fp v root (as ++ removeHook hk p :: bs))
  | [] => by
      by_cases hcase : hk = .afterChange
      · subst hcase
        obtain ⟨f, hf, hthrow⟩ := hth
        simp only [List.nil_append, runAfterChangeLoop, hf, hthrow, removeHook]
        rw [tracePurge_append]
        rw [tracePurge_cons_self p.id _ _ (by rfl),
          tracePurge_cons_self p.id _ _ (by rfl)]
        simp [tracePurge]
      · simp only [List.nil_append, runAfterChangeLoop,
          removeHook_afterChange hk p hcase, removeHook_id hk p]
  | a :: as => by
      simp only [List.cons_append, runAfterChangeLoop]
      rw [tracePurge_append, tracePurge_append]
      congr 1
      exact runAfterChangeLoop_removeHook fp v root hk p bs hth as

/-- Same for `onSubscribe`. -/
theorem runOnSubscribeLoop_removeHook (oid : Nat)
    (hk : HookName) (p : Plugin) (bs : List Plugin)
    (hth : throwsAlways p hk) :
    ∀ as : List Plugin,
      tracePurge p.id (runOnSubscribeLoop oid (as ++ p :: bs)) =
        tracePurge p.id (runOnSubscribeLoop oid (as ++ removeHook hk p :: bs))
  | [] => by
      by_cases hcase : hk = .onSubscribe
      · subst hcase
        obtain ⟨f, hf, hthrow⟩ := hth
        simp only [List.nil_append, runOnSubscribeLoop, hf, hthrow, removeHook]
        rw [tracePurge_append]
        rw [tracePurge_cons_self p.id _ _ (by rfl),
          tracePurge_cons_self p.id _ _ (by rfl)]
        simp [tracePurge]
      · simp only [List.nil_append, runOnSubscribeLoop,
          removeHook_onSubscribe hk p hcase, removeHook_id hk p]
  | a :: as => by
      simp only [List.cons_append, runOnSubscribeLoop]
      rw [tracePurge_append, tracePurge_append]
      congr 1
      exact runOnSubscribeLoop_removeHook oid hk p bs hth as

/-- Same for `onSnapshot`. -/
theorem runOnSnapshotLoop_removeHook (snap : Val)
    (hk : HookName) (p : Plugin) (bs : List Plugin)
    (hth : throwsAlways p hk) :
    ∀ as : List Plugin,
      tracePurge p.id (runOnSnapshotLoop snap (as ++ p :: bs)) =
        tracePurge p.id (runOnSnapshotLoop snap (as ++ removeHook hk p :: bs))
  | [] => by
      by_cases hcase : hk = .onSnapshot
      · subst hcase
        obtain ⟨f, hf, hthrow⟩ := hth
        simp only [List.nil_append, runOnSnapshotLoop, hf, hthrow, removeHook]
        rw [tracePurge_append]
        rw [tracePurge_cons_self p.id _ _ (by rfl),
          tracePurge_cons_self p.id _ _ (by rfl)]
        simp [tracePurge]
      · simp only [List.nil_append, runOnSnapshotLoop,
          removeHook_onSnapshot hk p hcase, removeHook_id hk p]
  | a :: as => by
      simp only [List.cons_append, runOnSnapshotLoop]
      rw [tracePurge_append, tracePurge_append]
      congr 1
      exact runOnSnapshotLoop_removeHook snap hk p bs hth as

theorem tracePurge_cons_congr (pid : String) (e : Event) (t1 t2 : List Event)
    (h : tracePurge pid t1 = tracePurge pid t2) :
    tracePurge pid (e :: t1) = tracePurge pid (e :: t2) := by
  simp only [tracePurge, List.filter_cons] at h ⊢
  split
  · rw [h]
  · exact h

/-- A faulty (or removed) `transformGet` hook behaves as "no
transform": the pipeline's value and the other plugins' recorded
activity are unchanged. -/
theorem runTransformGetLoop_removeHook (fp : List String) (root : Nat)
    (hk : HookName) (p : Plugin) (bs : List Plugin) (hth : throwsAlways p hk) :
    ∀ (as : List Plugin) (v : Val),
      (runTransformGetLoop fp root (as ++ p :: bs) v).1 =
        (runTransformGetLoop fp root (as ++ removeHook hk p :: bs) v).1 ∧
      tracePurge p.id (runTransformGetLoop fp root (as ++ p :: bs) v).2 =
        tracePurge p.id (runTransformGetLoop fp root (as ++ removeHook hk p :: bs) v).2
  | [], v => by
      by_cases hcase : hk = .transformGet
      · subst hcase
        obtain ⟨f, hf, hthrow⟩ := hth
        simp only [List.nil_append, runTransformGetLoop, hf, hthrow, removeHook]
        refine ⟨by trivial, ?_⟩
        rw [tracePurge_cons_self p.id _ _ (by rfl),
          tracePurge_cons_self p.id _ _ (by rfl)]
      · simp only [List.nil_append, runTransformGetLoop,
          removeHook_transformGet hk p hcase, removeHook_id hk p]
        exact ⟨by trivial, by trivial⟩
  | a :: as, v => by
      have ih := runTransformGetLoop_removeHook fp root hk p bs hth as
      simp only [List.cons_append, runTransformGetLoop]
      cases hA : a.transformGet with
      | none => exact ih v
      | some f =>
          simp only [hA]
          cases hr2 : f fp v root with
          | exn =>
              refine ⟨(ih v).1, ?_⟩
              exact tracePurge_cons_congr _ _ _ _
                (tracePurge_cons_congr _ _ _ _ (ih v).2)
          | ok tv =>
              refine ⟨(ih (if tv = Val.undef then v else tv)).1, ?_⟩
              exact tracePurge_cons_congr _ _ _ _
                (ih (if tv = Val.undef then v else tv)).2

/-- Same for `transformSet`. -/
theorem runTransformSetLoop_removeHook (fp : List String) (root : Nat)
    (hk : HookName) (p : Plugin) (bs : List Plugin) (hth : throwsAlways p hk) :
    ∀ (as : List Plugin) (v : Val),
      (runTransformSetLoop fp root (as ++ p :: bs) v).1 =
        (runTransformSetLoop fp root (as ++ removeHook hk p :: bs) v).1 ∧
      tracePurge p.id (runTransformSetLoop fp root (as ++ p :: bs) v).2 =
        tracePurge p.id (runTransformSetLoop fp root (as ++ removeHook hk p :: bs) v).2
  | [], v => by
      by_cases hcase : hk = .transformSet
      · subst hcase
        obtain ⟨f, hf, hthrow⟩ := hth
        simp only [List.nil_append, runTransformSetLoop, hf, hthrow, removeHook]
        refine ⟨by trivial, ?_⟩
        rw [tracePurge_cons_self p.id _ _ (by rfl),
          tracePurge_cons_self p.id _ _ (by rfl)]
      · simp only [List.nil_append, runTransformSetLoop,
          removeHook_transformSet hk p hcase, removeHook_id hk p]
        exact ⟨by trivial, by trivial⟩
  | a :: as, v => by
      have ih := runTransformSetLoop_removeHook fp root hk p bs hth as
      simp only [List.cons_append, runTransformSetLoop]
      cases hA : a.transformSet with
      | none => exact ih v
      | some f =>
          simp only [hA]
          cases hr2 : f fp v root with
          | exn =>
              refine ⟨(ih v).1, ?_⟩
              exact tracePurge_cons_congr _ _ _ _
                (tracePurge_cons_congr _ _ _ _ (ih v).2)
          | ok tv =>
              refine ⟨(ih (if tv = Val.undef then v else tv)).1, ?_⟩
              exact tracePurge_cons_congr _ _ _ _
                (ih (if tv = Val.undef then v else tv)).2

/-- A faulty (or removed) `beforeChange` hook is treated as "no
opinion": the veto outcome and the other plugins' recorded activity are
unchanged. -/
theorem runBeforeChangeLoop_removeHook (fp : List String) (nv pv : Val) (root : Nat)
    (hk : HookName) (p : Plugin) (bs : List Plugin) (hth : throwsAlways p hk) :
    ∀ as : List Plugin,
      (runBeforeChangeLoop fp nv pv root (as ++ p :: bs)).1 =
        (runBeforeChangeLoop fp nv pv root (as ++ removeHook hk p :: bs)).1 ∧
      tracePurge p.id (runBeforeChangeLoop fp nv pv root (as ++ p :: bs)).2 =
        tracePurge p.id (runBeforeChangeLoop fp nv pv root (as ++ removeHook hk p :: bs)).2
  | [] => by
      by_cases hcase : hk = .beforeChange
      · subst hcase
        obtain ⟨f, hf, hthrow⟩ := hth
        simp only [List.nil_append, runBeforeChangeLoop, hf, hthrow, removeHook]
        refine ⟨by trivial, ?_⟩
        rw [tracePurge_cons_self p.id _ _ (by rfl),
          tracePurge_cons_self p.id _ _ (by rfl)]
      · simp only [List.nil_append, runBeforeChangeLoop,
          removeHook_beforeChange hk p hcase, removeHook_id hk p]
        exact ⟨by trivial, by trivial⟩
  | a :: as => by
      have ih := runBeforeChangeLoop_removeHook fp nv pv root hk p bs hth as
      simp only [List.cons_append, runBeforeChangeLoop]
      cases hA : a.beforeChange with
      | none => exact ih
      | some f =>
          simp only [hA]
          cases hr2 : f fp nv pv root with
          | exn =>
              refine ⟨ih.1, ?_⟩
              exact tracePurge_cons_congr _ _ _ _
                (tracePurge_cons_congr _ _ _ _ ih.2)
          | ok res =>
              by_cases hres : res = Val.boolV false
              · simp [hres]
              · simp only [hres, if_false, reduceIte]
                exact ⟨ih.1, tracePurge_cons_congr _ _ _ _ ih.2⟩

/-- Same for `canProxy`. -/
theorem runCanProxyLoop_removeHook (v : Val) (ob : Bool)
    (hk : HookName) (p : Plugin) (bs : List Plugin) (hth : throwsAlways p hk) :
    ∀ as : List Plugin,
      (runCanProxyLoop v ob (as ++ p :: bs)).1 =
        (runCanProxyLoop v ob (as ++ removeHook hk p :: bs)).1 ∧
      tracePurge p.id (runCanProxyLoop v ob (as ++ p :: bs)).2 =
        tracePurge p.id (runCanProxyLoop v ob (as ++ removeHook hk p :: bs)).2
  | [] => by
      by_cases hcase : hk = .canProxy
      · subst hcase
        obtain ⟨f, hf, hthrow⟩ := hth
        simp only [List.nil_append, runCanProxyLoop, hf, hthrow, removeHook]
        refine ⟨by trivial, ?_⟩
        rw [tracePurge_cons_self p.id _ _ (by rfl),
          tracePurge_cons_self p.id _ _ (by rfl)]
      · simp only [List.nil_append, runCanProxyLoop,
          removeHook_canProxy hk p hcase, removeHook_id hk p]
        exact ⟨by trivial, by trivial⟩
  | a :: as => by
      have ih := runCanProxyLoop_removeHook v ob hk p bs hth as
      simp only [List.cons_append, runCanProxyLoop]
      cases hA : a.canProxy with
      | none => exact ih
      | some f =>
          simp only [hA]
          cases hr2 : f v ob with
          | exn =>
              refine ⟨ih.1, ?_⟩
              exact tracePurge_cons_congr _ _ _ _
                (tracePurge_cons_congr _ _ _ _ ih.2)
          | ok res =>
              by_cases hres : res = Val.boolV false
              · simp [hres]
              · simp only [hres, if_false, reduceIte]
                exact ⟨ih.1, tracePurge_cons_congr _ _ _ _ ih.2⟩

theorem opt_none_of_isSome_false {α : Type} (o : Option α) (h : o.isSome = false) :
    o = none := by
  cases o with
  | none => rfl
  | some a => simp at h

/-- An observation loop over a chain whose only `onGet`-bearing plugin
has the purged id records nothing visible to the others. -/
theorem runOnGetLoop_purge_nil (fp : List String) (v : Val) (root : Nat) (pid : String) :
    ∀ ps : List Plugin, (∀ q ∈ ps, q.onGet = none ∨ q.id = pid) →
      tracePurge pid (runOnGetLoop fp v root ps) = []
  | [] => by intro _; rfl
  | a :: ps => by
      intro hall
      have ha := hall a (by simp)
      have hrest : ∀ q ∈ ps, q.onGet = none ∨ q.id = pid :=
        fun q hq => hall q (by simp [hq])
      rw [runOnGetLoop, tracePurge_append,
        runOnGetLoop_purge_nil fp v root pid ps hrest, List.append_nil]
      rcases ha with h1 | h1
      · simp [h1, tracePurge]
      · cases hA : a.onGet with
        | none => simp [tracePurge]
        | some f =>
            cases hr : f fp v root with
            | ok u => simp [hr, tracePurge, Event.pluginId, h1]
            | exn => simp [hr, tracePurge, Event.pluginId, h1]

/-- A transform loop whose only `transformGet`-bearing plugin has the
purged id and always throws leaves the value unchanged and records
nothing visible to the others. -/
theorem runTransformGetLoop_inert (fp : List String) (root : Nat) (pid : String) :
    ∀ (ps : List Plugin) (v : Val),
      (∀ q ∈ ps, q.transformGet = none ∨
        (q.id = pid ∧ ∃ f, q.transformGet = some f ∧ ∀ a b c, f a b c = HookRes.exn)) →
      (runTransformGetLoop fp root ps v).1 = v ∧
      tracePurge pid (runTransformGetLoop fp root ps v).2 = []
  | [], v => by intro _; exact ⟨rfl, rfl⟩
  | a :: ps, v => by
      intro hall
      have ha := hall a (by simp)
      have hrest : ∀ q ∈ ps, (q.transformGet = none ∨
          (q.id = pid ∧ ∃ f, q.transformGet = some f ∧
            ∀ a b c, f a b c = HookRes.exn)) :=
        fun q hq => hall q (by simp [hq])
      have IH := runTransformGetLoop_inert fp root pid ps v hrest
      rcases ha with h1 | ⟨hid, f, hf, hthrow⟩
      · simp only [runTransformGetLoop, h1]
        exact IH
      · simp only [runTransformGetLoop, hf, hthrow]
        refine ⟨IH.1, ?_⟩
        rw [tracePurge_cons_self pid _ _ (by simp [Event.pluginId, hid]),
          tracePurge_cons_self pid _ _ (by simp [Event.pluginId, hid])]
        exact IH.2

theorem hasHigh_removeHook_mono (hk : HookName) (p : Plugin) (as bs : List Plugin)
    (h : (as ++ removeHook hk p :: bs).any
      (fun q => q.onGet.isSome || q.transformGet.isSome) = true) :
    (as ++ p :: bs).any (fun q => q.onGet.isSome || q.transformGet.isSome) = true := by
  simp only [List.any_append, List.any_cons, Bool.or_eq_true] at h ⊢
  rcases h with h | h | h
  · exact Or.inl h
  · rcases h with h | h
    · exact Or.inr (Or.inl (Or.inl (removeHook_le_onGet hk p h)))
    · exact Or.inr (Or.inl (Or.inr (removeHook_le_transformGet hk p h)))
  · exact Or.inr (Or.inr h)

/-- Fault isolation in the slow `get` path for every hook other than the
raw-read one: the visible result is as if the faulty plugin's hook were
absent, and the other plugins' recorded activity is unchanged. -/
theorem handlerGetSlow_removeHook (st : EngineState) (h : Heap) (receiver : Nat)
    (prop : String) (init : Bool) (hk : HookName) (p : Plugin) (as bs : List Plugin)
    (hne : hk ≠ .onGetRaw) (hth : throwsAlways p hk) :
    getVisible (handlerGetSlow st h receiver prop init (as ++ p :: bs)) =
      getVisible (handlerGetSlow st h receiver prop init (as ++ removeHook hk p :: bs)) ∧
    tracePurge p.id (getTrace (handlerGetSlow st h receiver prop init (as ++ p :: bs))) =
      tracePurge p.id
        (getTrace (handlerGetSlow st h receiver prop init (as ++ removeHook hk p :: bs))) := by
  have hraw := runOnGetRawLoop_removeHook receiver prop receiver
    (rawGet h receiver prop) hk p bs hne as
  simp only [handlerGetSlow]
  rw [hraw]
  cases hE : (if st.globalRawHooksCount > 0 ∨ (nodeMeta h receiver).rawHooksCount.getD 0 > 0
      then runOnGetRawLoop receiver prop receiver (rawGet h receiver prop)
        (as ++ removeHook hk p :: bs)
      else Except.ok []) with
  | error e => exact ⟨by trivial, by trivial⟩
  | ok rawEvents =>
      cases hm1 : (nodeMeta h receiver).rootProxy with
      | none => exact ⟨by trivial, by trivial⟩
      | some root =>
          cases hm2 : (nodeMeta h receiver).instanceId with
          | none => exact ⟨by trivial, by trivial⟩
          | some iid =>
              simp only
              by_cases hinit : (init = true ∨ iid = "")
              · simp only [if_pos hinit]
                exact ⟨by trivial, by trivial⟩
              · simp only [if_neg hinit]
                by_cases hH2 : ((as ++ removeHook hk p :: bs).any
                    (fun q => q.onGet.isSome || q.transformGet.isSome)) = true
                · have hH1 := hasHigh_removeHook_mono hk p as bs hH2
                  simp only [hH1, hH2, if_true]
                  have htg := runTransformGetLoop_removeHook
                    ((nodeMeta h receiver).path.getD [] ++ [prop]) root hk p bs hth as
                    (rawGet h receiver prop)
                  have hog := runOnGetLoop_removeHook
                    ((nodeMeta h receiver).path.getD [] ++ [prop])
                    (rawGet h receiver prop) root hk p bs hth as
                  refine ⟨?_, ?_⟩
                  · simp only [getVisible, Except.map]
                    rw [htg.1]
                  · simp only [getTrace]
                    rw [tracePurge_append, tracePurge_append,
                      tracePurge_append, tracePurge_append, hog, htg.2]
                · by_cases hH1 : ((as ++ p :: bs).any
                      (fun q => q.onGet.isSome || q.transformGet.isSome)) = true
                  · have hH2' : ((as ++ removeHook hk p :: bs).any
                        (fun q => q.onGet.isSome || q.transformGet.isSome)) = false :=
                      Bool.not_eq_true _ |>.mp hH2
                    have hall := List.any_eq_false.mp hH2'
                    have hforall : ∀ q ∈ as ++ removeHook hk p :: bs,
                        q.onGet = none ∧ q.transformGet = none := by
                      intro q hq
                      have := hall q hq
                      simp only [Bool.or_eq_true, not_or] at this
                      exact ⟨opt_none_of_isSome_false _ (by
                          cases hg : q.onGet.isSome
                          · rfl
                          · exact absurd hg this.1),
                        opt_none_of_isSome_false _ (by
                          cases hg : q.transformGet.isSome
                          · rfl
                          · exact absurd hg this.2)⟩
                    have hOnGetCond : ∀ q ∈ as ++ p :: bs,
                        q.onGet = none ∨ q.id = p.id := by
                      intro q hq
                      rcases List.mem_append.mp hq with hq1 | hq2
                      · exact Or.inl (hforall q (List.mem_append.mpr (Or.inl hq1))).1
                      · rcases List.mem_cons.mp hq2 with hq3 | hq4
                        · rw [hq3]; exact Or.inr rfl
                        · exact Or.inl (hforall q (List.mem_append.mpr
                            (Or.inr (List.mem_cons.mpr (Or.inr hq4))))).1
                    have hTransCond : ∀ q ∈ as ++ p :: bs, q.transformGet = none ∨
                        (q.id = p.id ∧ ∃ f, q.transformGet = some f ∧
                          ∀ a b c, f a b c = HookRes.exn) := by
                      intro q hq
                      rcases List.mem_append.mp hq with hq1 | hq2
                      · exact Or.inl (hforall q (List.mem_append.mpr (Or.inl hq1))).2
                      · rcases List.mem_cons.mp hq2 with hq3 | hq4
                        · rw [hq3]
                          by_cases hkc : hk = HookName.transformGet
                          · subst hkc
                            obtain ⟨f, hf, hthrow⟩ := hth
                            exact Or.inr ⟨rfl, f, hf, hthrow⟩
                          · refine Or.inl ?_
                            have hp' := (hforall (removeHook hk p)
                              (List.mem_append.mpr (Or.inr (List.mem_cons.mpr
                                (Or.inl rfl))))).2
                            rw [← removeHook_transformGet hk p hkc]
                            exact hp'
                        · exact Or.inl (hforall q (List.mem_append.mpr
                            (Or.inr (List.mem_cons.mpr (Or.inr hq4))))).2
                    have hinert := runTransformGetLoop_inert
                      ((nodeMeta h receiver).path.getD [] ++ [prop]) root p.id
                      (as ++ p :: bs) (rawGet h receiver prop) hTransCond
                    have hognil := runOnGetLoop_purge_nil
                      ((nodeMeta h receiver).path.getD [] ++ [prop])
                      (rawGet h receiver prop) root p.id (as ++ p :: bs) hOnGetCond
                    have hH2f : ((as ++ removeHook hk p :: bs).any
                        (fun q => q.onGet.isSome || q.transformGet.isSome)) = false := hH2'
                    simp only [hH1, hH2f, if_true, Bool.false_eq_true, if_false]
                    refine ⟨?_, ?_⟩
                    · simp only [getVisible, Except.map]
                      rw [hinert.1]
                    · simp only [getTrace]
                      rw [tracePurge_append, tracePurge_append, hognil, hinert.2]
                      simp
                  · have hH1f := Bool.not_eq_true _ |>.mp hH1
                    have hH2f := Bool.not_eq_true _ |>.mp hH2
                    simp only [hH1f, hH2f, Bool.false_eq_true, if_false]
                    exact ⟨by trivial, by trivial⟩

/-- Fault isolation in the slow `set` path. -/
theorem handlerSetSlow_removeHook (h : Heap) (receiver : Nat) (prop : String)
    (value : Val) (root : Nat) (hk : HookName) (p : Plugin) (as bs : List Plugin)
    (hth : throwsAlways p hk) :
    (handlerSetSlow h receiver prop value root (as ++ p :: bs)).1 =
      (handlerSetSlow h receiver prop value root (as ++ removeHook hk p :: bs)).1 ∧
    (handlerSetSlow h receiver prop value root (as ++ p :: bs)).2.1 =
      (handlerSetSlow h receiver prop value root (as ++ removeHook hk p :: bs)).2.1 ∧
    tracePurge p.id (handlerSetSlow h receiver prop value root (as ++ p :: bs)).2.2 =
      tracePurge p.id
        (handlerSetSlow h receiver prop value root (as ++ removeHook hk p :: bs)).2.2 := by
  have hts := runTransformSetLoop_removeHook
    ((nodeMeta h receiver).path.getD [] ++ [prop]) root hk p bs hth as value
  have hbc := runBeforeChangeLoop_removeHook
    ((nodeMeta h receiver).path.getD [] ++ [prop])
    ((runTransformSetLoop ((nodeMeta h receiver).path.getD [] ++ [prop]) root
      (as ++ removeHook hk p :: bs) value).1)
    (rawGet h receiver prop) root hk p bs hth as
  have hac := runAfterChangeLoop_removeHook
    ((nodeMeta h receiver).path.getD [] ++ [prop])
    ((runTransformSetLoop ((nodeMeta h receiver).path.getD [] ++ [prop]) root
      (as ++ removeHook hk p :: bs) value).1) root hk p bs hth as
  simp only [handlerSetSlow]
  rw [hts.1, hbc.1]
  by_cases hv : (runBeforeChangeLoop ((nodeMeta h receiver).path.getD [] ++ [prop])
      ((runTransformSetLoop ((nodeMeta h receiver).path.getD [] ++ [prop]) root
        (as ++ removeHook hk p :: bs) value).1)
      (rawGet h receiver prop) root (as ++ removeHook hk p :: bs)).1 = true
  · simp only [hv, if_true]
    refine ⟨by trivial, by trivial, ?_⟩
    rw [tracePurge_append, tracePurge_append, hts.2, hbc.2]
  · have hv' := Bool.not_eq_true _ |>.mp hv
    simp only [hv', Bool.false_eq_true, if_false, rawSet, reduceIte]
    refine ⟨by trivial, by trivial, ?_⟩
    rw [tracePurge_append, tracePurge_append, tracePurge_append, tracePurge_append,
      hts.2, hbc.2, hac]

/-- Fault isolation in the slow `deleteProperty` path. -/
theorem handlerDeleteSlow_removeHook (h : Heap) (target : Nat) (prop : String)
    (root : Nat) (hk : HookName) (p : Plugin) (as bs : List Plugin)
    (hth : throwsAlways p hk) :
    (handlerDeleteSlow h target prop root (as ++ p :: bs)).1 =
      (handlerDeleteSlow h target prop root (as ++ removeHook hk p :: bs)).1 ∧
    (handlerDeleteSlow h target prop root (as ++ p :: bs)).2.1 =
      (handlerDeleteSlow h target prop root (as ++ removeHook hk p :: bs)).2.1 ∧
    tracePurge p.id (handlerDeleteSlow h target prop root (as ++ p :: bs)).2.2 =
      tracePurge p.id
        (handlerDeleteSlow h target prop root (as ++ removeHook hk p :: bs)).2.2 := by
  have hbc := runBeforeChangeLoop_removeHook
    ((nodeMeta h target).path.getD [] ++ [prop]) Val.undef
    (rawGet h target prop) root hk p bs hth as
  have hac := runAfterChangeLoop_removeHook
    ((nodeMeta h target).path.getD [] ++ [prop]) Val.undef root hk p bs hth as
  simp only [handlerDeleteSlow]
  rw [hbc.1]
  by_cases hv : (runBeforeChangeLoop ((nodeMeta h target).path.getD [] ++ [prop])
      Val.undef (rawGet h target prop) root (as ++ removeHook hk p :: bs)).1 = true
  · simp only [hv, if_true]
    exact ⟨by trivial, by trivial, hbc.2⟩
  · have hv' := Bool.not_eq_true _ |>.mp hv
    simp only [hv', Bool.false_eq_true, if_false, rawDelete, reduceIte]
    refine ⟨by trivial, by trivial, ?_⟩
    rw [tracePurge_append, tracePurge_append, hbc.2, hac]

/-- C1 (amended): for every intercepted operation and every hook OTHER
THAN the raw-read hook `onGetRaw`, a throwing hook is caught at the
dispatch boundary, the remaining plugins' hooks still run unchanged,
and the operation's externally visible result equals the result with
the faulty plugin's hook absent.  The raw-read hook is the exception:
its invocation is not wrapped, so its exception escapes the read (see
the counterexample). -/
theorem hook_fault_isolation (st : EngineState) (h : Heap) (receiver : Nat)
    (prop : String) (value : Val) (init : Bool) (root : Nat) (oid : Nat)
    (snap cv : Val) (ob : Bool) (hk : HookName) (p : Plugin) (as bs : List Plugin)
    (hne : hk ≠ .onGetRaw) (hth : throwsAlways p hk) :
    getVisible (handlerGetSlow st h receiver prop init (as ++ p :: bs)) =
      getVisible (handlerGetSlow st h receiver prop init (as ++ removeHook hk p :: bs)) ∧
    tracePurge p.id (getTrace (handlerGetSlow st h receiver prop init (as ++ p :: bs))) =
      tracePurge p.id (getTrace
        (handlerGetSlow st h receiver prop init (as ++ removeHook hk p :: bs))) ∧
    (handlerSetSlow h receiver prop value root (as ++ p :: bs)).1 =
      (handlerSetSlow h receiver prop value root (as ++ removeHook hk p :: bs)).1 ∧
    (handlerSetSlow h receiver prop value root (as ++ p :: bs)).2.1 =
      (handlerSetSlow h receiver prop value root (as ++ removeHook hk p :: bs)).2.1 ∧
    tracePurge p.id (handlerSetSlow h receiver prop value root (as ++ p :: bs)).2.2 =
      tracePurge p.id
        (handlerSetSlow h receiver prop value root (as ++ removeHook hk p :: bs)).2.2 ∧
    (handlerDeleteSlow h receiver prop root (as ++ p :: bs)).1 =
      (handlerDeleteSlow h receiver prop root (as ++ removeHook hk p :: bs)).1 ∧
    (handlerDeleteSlow h receiver prop root (as ++ p :: bs)).2.1 =
      (handlerDeleteSlow h receiver prop root (as ++ removeHook hk p :: bs)).2.1 ∧
    tracePurge p.id (handlerDeleteSlow h receiver prop root (as ++ p :: bs)).2.2 =
      tracePurge p.id
        (handlerDeleteSlow h receiver prop root (as ++ removeHook hk p :: bs)).2.2 ∧
    tracePurge p.id (runOnSubscribeLoop oid (as ++ p :: bs)) =
      tracePurge p.id (runOnSubscribeLoop oid (as ++ removeHook hk p :: bs)) ∧
    tracePurge p.id (runOnSnapshotLoop snap (as ++ p :: bs)) =
      tracePurge p.id (runOnSnapshotLoop snap (as ++ removeHook hk p :: bs)) ∧
    (runCanProxyLoop cv ob (as ++ p :: bs)).1 =
      (runCanProxyLoop cv ob (as ++ removeHook hk p :: bs)).1 ∧
    tracePurge p.id (runCanProxyLoop cv ob (as ++ p :: bs)).2 =
      tracePurge p.id (runCanProxyLoop cv ob (as ++ removeHook hk p :: bs)).2 := by
  have hget := handlerGetSlow_removeHook st h receiver prop init hk p as bs hne hth
  have hset := handlerSetSlow_removeHook h receiver prop value root hk p as bs hth
  have hdel := handlerDeleteSlow_removeHook h receiver prop root hk p as bs hth
  have hsub := runOnSubscribeLoop_removeHook oid hk p bs hth as
  have hsnap := runOnSnapshotLoop_removeHook snap hk p bs hth as
  have hcp := runCanProxyLoop_removeHook cv ob hk p bs hth as
  exact ⟨hget.1, hget.2, hset.1, hset.2.1, hset.2.2, hdel.1, hdel.2.1, hdel.2.2,
    hsub, hsnap, hcp.1, hcp.2⟩

/-- Witness for the amended C1: a chain whose first plugin's
`transformGet` always throws behaves, on read and write, exactly like
the chain with that hook absent. -/
theorem hook_fault_isolation_witness :
    getVisible (handlerGetSlow {} exHeap 1 "k" false
        ([] ++ throwingTransformGet :: [obsPlugin])) =
      getVisible (handlerGetSlow {} exHeap 1 "k" false
        ([] ++ removeHook .transformGet throwingTransformGet :: [obsPlugin])) ∧
    (handlerSetSlow exHeap 1 "k" (Val.numV 9) 1
        ([] ++ throwingTransformGet :: [obsPlugin])).2.1 =
      (handlerSetSlow exHeap 1 "k" (Val.numV 9) 1
        ([] ++ removeHook .transformGet throwingTransformGet :: [obsPlugin])).2.1 := by
  have h := hook_fault_isolation {} exHeap 1 "k" (Val.numV 9) false 1 1
    Val.undef Val.undef true .transformGet throwingTransformGet [] [obsPlugin]
    (by decide)
    ⟨fun _ _ _ => .exn, rfl, fun _ _ _ => rfl⟩
  exact ⟨h.1, h.2.2.2.1⟩

/-- Counterexample for C1 as stated: a throwing `onGetRaw` hook is NOT
caught at the dispatch boundary — the read aborts with the exception,
whereas with the plugin absent the same read completes normally. -/
theorem onGetRaw_exception_escapes :
    handlerGet { globalPlugins := [rawThrower], globalRawHooksCount := 1 }
      exHeap 1 "k" false = .error () ∧
    handlerGet {} exHeap 1 "k" false = .ok (Val.numV 0, exHeap, []) := by
  exact ⟨rfl, rfl⟩

/-! ## C8 — scope disposal -/

theorem RegRel_refl (o : Option Reg) : RegRel o o := by
  cases o with
  | none => trivial
  | some r => exact ⟨rfl, rfl, rfl, fun h => h, List.Sublist.refl _⟩

theorem stEvolves_refl (st : EngineState) : stEvolves st st :=
  fun _ => RegRel_refl _

theorem RegRel_trans (a b c : Option Reg) (h1 : RegRel a b) (h2 : RegRel b c) :
    RegRel a c := by
  cases a with
  | none =>
      cases b with
      | none => cases c with
        | none => trivial
        | some r => exact absurd h2 (by simp [RegRel])
      | some r => exact absurd h1 (by simp [RegRel])
  | some ra =>
      cases b with
      | none => exact absurd h1 (by simp [RegRel])
      | some rb =>
          cases c with
          | none => exact absurd h2 (by simp [RegRel])
          | some rc =>
              obtain ⟨hp1, hq1, hw1, hd1, hc1⟩ := h1
              obtain ⟨hp2, hq2, hw2, hd2, hc2⟩ := h2
              exact ⟨hp2.trans hp1, hq2.trans hq1, hw2.trans hw1,
                fun h => hd2 (hd1 h), hc2.trans hc1⟩

theorem stEvolves_trans {a b c : EngineState} (h1 : stEvolves a b)
    (h2 : stEvolves b c) : stEvolves a c :=
  fun j => RegRel_trans _ _ _ (h1 j) (h2 j)

theorem aliveIn_false_mono {st st' : EngineState} (hev : stEvolves st st')
    (d : String) (h : aliveIn st d = false) : aliveIn st' d = false := by
  have hr := hev d
  cases h1 : findReg st d with
  | none =>
      rw [h1] at hr
      cases h2 : findReg st' d with
      | none => simp [aliveIn, h2]
      | some r' => rw [h2] at hr; exact absurd hr (by simp [RegRel])
  | some r =>
      rw [h1] at hr
      cases h2 : findReg st' d with
      | none => simp [aliveIn, h2]
      | some r' =>
          rw [h2] at hr
          obtain ⟨-, -, -, hd, -⟩ := hr
          simp only [aliveIn, h1] at h
          simp only [aliveIn, h2]
          have hbt : r.isDisposed = true := by
            cases hb : r.isDisposed
            · rw [hb] at h; simp at h
            · rfl
          simp [hd hbt]

theorem aliveIn_true_mono {st st' : EngineState} (hev : stEvolves st st')
    (d : String) (h : aliveIn st' d = true) : aliveIn st d = true := by
  cases h1 : aliveIn st d with
  | true => rfl
  | false => rw [aliveIn_false_mono hev d h1] at h; exact absurd h (by simp)

theorem ownPlugins_pres {st st' : EngineState} (hev : stEvolves st st')
    (d : String) (h1 : aliveIn st d = true) (h2 : aliveIn st' d = true) :
    ownPlugins st' d = ownPlugins st d := by
  have hr := hev d
  unfold aliveIn at h1 h2
  unfold ownPlugins mapGet
  cases hf1 : findReg st d with
  | none => rw [hf1] at h1; exact absurd h1 (by simp)
  | some r =>
      cases hf2 : findReg st' d with
      | none => rw [hf2] at h2; exact absurd h2 (by simp)
      | some r' =>
          rw [hf1] at h1 hr
          rw [hf2] at h2 hr
          obtain ⟨hp, -, -, -, -⟩ := hr
          simp only [Bool.not_eq_true'] at h1 h2
          simp [h1, h2, hp]

theorem RankOK_pres {st st' : EngineState} (rank : String → Nat)
    (hr : RankOK st rank) (hev : stEvolves st st') : RankOK st' rank := by
  intro j r' hf' c hc
  have hj := hev j
  cases hf : findReg st j with
  | none => rw [hf, hf'] at hj; exact absurd hj (by simp [RegRel])
  | some r =>
      rw [hf, hf'] at hj
      obtain ⟨-, -, -, -, hcs⟩ := hj
      exact hr j r hf c (hcs.mem hc)

theorem findReg_some_of_evolves {st st' : EngineState} (hev : stEvolves st st')
    (j : String) (r : Reg) (h : findReg st j = some r) :
    ∃ r', findReg st' j = some r' := by
  have hj := hev j
  rw [h] at hj
  cases h2 : findReg st' j with
  | none => rw [h2] at hj; exact absurd hj (by simp [RegRel])
  | some r' => exact ⟨r', rfl⟩

theorem stEvolves_filterChildren (st : EngineState) (pid iid : String) :
    stEvolves st (updateReg st pid
      (fun r => { r with children := r.children.filter (fun c => c ≠ iid) })) := by
  intro j
  rw [findReg_updateReg]
  by_cases hj : j = pid
  · subst hj
    rw [if_pos rfl]
    cases hf : findReg st j with
    | none => trivial
    | some r =>
        simp [RegRel, List.filter_sublist]
  · rw [if_neg hj]
    exact RegRel_refl _

theorem stEvolves_mark (st : EngineState) (iid : String) :
    stEvolves st (updateReg st iid
      (fun r => { r with isDisposed := true, children := [] })) := by
  intro j
  rw [findReg_updateReg]
  by_cases hj : j = iid
  · subst hj
    rw [if_pos rfl]
    cases hf : findReg st j with
    | none => trivial
    | some r =>
        simp [RegRel, List.nil_sublist]
  · rw [if_neg hj]
    exact RegRel_refl _

theorem aliveIn_filterChildren (st : EngineState) (pid iid d : String) :
    aliveIn (updateReg st pid
      (fun r => { r with children := r.children.filter (fun c => c ≠ iid) })) d =
      aliveIn st d := by
  unfold aliveIn
  rw [findReg_updateReg]
  by_cases hj : d = pid
  · rw [if_pos hj, hj]
    cases hf : findReg st pid <;> simp
  · rw [if_neg hj]

theorem aliveIn_mark_self (st : EngineState) (iid : String) :
    aliveIn (updateReg st iid
      (fun r => { r with isDisposed := true, children := [] })) iid = false := by
  unfold aliveIn
  rw [findReg_updateReg, if_pos rfl]
  cases hf : findReg st iid <;> simp

theorem aliveIn_mark_other (st : EngineState) (iid d : String) (hne : d ≠ iid) :
    aliveIn (updateReg st iid
      (fun r => { r with isDisposed := true, children := [] })) d =
      aliveIn st d := by
  unfold aliveIn
  rw [findReg_updateReg, if_neg hne]

theorem childLink_filterChildren_pres (st : EngineState) (pid iid y z : String)
    (hl : childLink st y z) (hz : z ≠ iid) :
    childLink (updateReg st pid
      (fun r => { r with children := r.children.filter (fun c => c ≠ iid) })) y z := by
  obtain ⟨r, hf, hd, hm⟩ := hl
  by_cases hy : y = pid
  · subst hy
    refine ⟨{ r with children := r.children.filter (fun c => c ≠ iid) }, ?_, hd, ?_⟩
    · rw [findReg_updateReg, if_pos rfl, hf]
      rfl
    · simp only [List.mem_filter]
      exact ⟨hm, by simpa using hz⟩
  · exact ⟨r, by rw [findReg_updateReg, if_neg hy]; exact hf, hd, hm⟩

theorem childLink_mark_pres (st : EngineState) (iid y z : String)
    (hl : childLink st y z) (hy : y ≠ iid) :
    childLink (updateReg st iid
      (fun r => { r with isDisposed := true, children := [] })) y z := by
  obtain ⟨r, hf, hd, hm⟩ := hl
  exact ⟨r, by rw [findReg_updateReg, if_neg hy]; exact hf, hd, hm⟩

theorem filter_onDispose_runOnDisposeLoop_self (sid : String) :
    ∀ ps : List Plugin,
      (runOnDisposeLoop sid ps).filter (isOnDisposeOf sid) = onDisposeEvts sid ps
  | [] => rfl
  | p :: ps => by
      rw [runOnDisposeLoop, List.filter_append,
        filter_onDispose_runOnDisposeLoop_self sid ps]
      cases hd : p.onDispose with
      | none => simp [onDisposeEvts, List.filterMap_cons, hd]
      | some f =>
          cases hr : f () with
          | ok u => simp [onDisposeEvts, List.filterMap_cons, hd, hr, isOnDisposeOf]
          | exn => simp [onDisposeEvts, List.filterMap_cons, hd, hr, isOnDisposeOf]

theorem filter_onDispose_runOnDisposeLoop_other (sid d : String) (hne : d ≠ sid) :
    ∀ ps : List Plugin,
      (runOnDisposeLoop sid ps).filter (isOnDisposeOf d) = []
  | [] => rfl
  | p :: ps => by
      rw [runOnDisposeLoop, List.filter_append,
        filter_onDispose_runOnDisposeLoop_other sid d hne ps]
      cases hd : p.onDispose with
      | none => simp
      | some f =>
          cases hr : f () with
          | ok u => simp [hr, isOnDisposeOf, Ne.symm hne]
          | exn => simp [hr, isOnDisposeOf, Ne.symm hne]

/-- The exactly-once trace property composes over sequential disposal
steps: death is monotone and a scope's own plugin list is preserved
while it lives. -/
theorem trace_compose {st st1 st2 : EngineState} (tr1 tr2 : List Event)
    (hev1 : stEvolves st st1) (hev2 : stEvolves st1 st2)
    (h1 : ∀ d, tr1.filter (isOnDisposeOf d) =
      (if aliveIn st d = true ∧ aliveIn st1 d = false
       then onDisposeEvts d (ownPlugins st d) else []))
    (h2 : ∀ d, tr2.filter (isOnDisposeOf d) =
      (if aliveIn st1 d = true ∧ aliveIn st2 d = false
       then onDisposeEvts d (ownPlugins st1 d) else []))
    (d : String) :
    (tr1 ++ tr2).filter (isOnDisposeOf d) =
      (if aliveIn st d = true ∧ aliveIn st2 d = false
       then onDisposeEvts d (ownPlugins st d) else []) := by
  rw [List.filter_append, h1 d, h2 d]
  cases ha0 : aliveIn st d with
  | false =>
      have ha1 := aliveIn_false_mono hev1 d ha0
      simp [ha0, ha1]
  | true =>
      cases ha1 : aliveIn st1 d with
      | false =>
          have ha2 := aliveIn_false_mono hev2 d ha1
          simp [ha0, ha1, ha2]
      | true =>
          cases ha2 : aliveIn st2 d with
          | false =>
              rw [ownPlugins_pres hev1 d ha0 ha1]
              simp [ha0, ha1, ha2]
          | true => simp [ha0, ha1, ha2]

mutual

/-- The disposal guarantees of one `disposeInstanceRecursively` call,
for any acyclic scope forest and adequate fuel. -/
theorem disposeRec_spec (fuel : Nat) (st : EngineState) (iid : String)
    (rank : String → Nat) (hrank : RankOK st rank) (hfuel : rank iid < fuel) :
    DisposalSpec rank st iid (disposeInstanceRecursively fuel st iid) := by
  cases hreg : findReg st iid with
  | none =>
      simp only [disposeInstanceRecursively, hreg]
      refine ⟨stEvolves_refl st, ?_, ?_, ?_, ?_, ?_⟩
      · intro d
        rw [List.filter_nil, if_neg]
        rintro ⟨hx1, hx2⟩
        rw [hx1] at hx2
        exact absurd hx2 (by simp)
      · intro d hx1 hx2
        rw [hx1] at hx2
        exact absurd hx2 (by simp)
      · intro y z hl _ _
        exact hl
      · intro y z hl hy
        obtain ⟨r, hf, hd, -⟩ := hl
        simp [aliveIn, hf, hd] at hy
      · simp [aliveIn, hreg]
  | some reg =>
      cases hdisp : reg.isDisposed with
      | true =>
          simp only [disposeInstanceRecursively, hreg, hdisp, if_true]
          refine ⟨stEvolves_refl st, ?_, ?_, ?_, ?_, ?_⟩
          · intro d
            rw [List.filter_nil, if_neg]
            rintro ⟨hx1, hx2⟩
            rw [hx1] at hx2
            exact absurd hx2 (by simp)
          · intro d hx1 hx2
            rw [hx1] at hx2
            exact absurd hx2 (by simp)
          · intro y z hl _ _
            exact hl
          · intro y z hl hy
            obtain ⟨r, hf, hd, -⟩ := hl
            simp [aliveIn, hf, hd] at hy
          · simp [aliveIn, hreg, hdisp]
      | false =>
          cases fuel with
          | zero => exact absurd hfuel (Nat.not_lt_zero _)
          | succ fuel' =>
              have halive_st : aliveIn st iid = true := by
                simp [aliveIn, hreg, hdisp]
              have hcb : ∀ c ∈ reg.children, rank c < fuel' := by
                intro c hc
                exact lt_of_lt_of_le (hrank iid reg hreg c hc)
                  (Nat.lt_succ_iff.mp hfuel)
              have H1 := disposeList_spec fuel' st reg.children rank hrank hcb
              have halive1 :
                  aliveIn (disposeChildren fuel' st reg.children).1 iid = true := by
                cases ha : aliveIn (disposeChildren fuel' st reg.children).1 iid with
                | true => rfl
                | false =>
                    obtain ⟨c, hc, hle⟩ := H1.2.2.1 iid halive_st ha
                    exact absurd (hrank iid reg hreg c hc) (Nat.not_lt.mpr hle)
              -- the unlink step, abstracted over its three shapes
              obtain ⟨st2, unlTr, hshape, hev12, halive12, hlink12, hunltr⟩ :
                  ∃ st2 unlTr,
                    (match reg.parentId with
                      | some pid =>
                          match mapGet (disposeChildren fuel' st reg.children).1 pid with
                          | some _ =>
                              (updateReg (disposeChildren fuel' st reg.children).1 pid
                                (fun pr => { pr with
                                  children := pr.children.filter (fun c => c ≠ iid) }),
                                [Event.unlink iid pid])
                          | none => ((disposeChildren fuel' st reg.children).1,
                              ([] : List Event))
                      | none => ((disposeChildren fuel' st reg.children).1,
                          ([] : List Event))) = (st2, unlTr) ∧
                    stEvolves (disposeChildren fuel' st reg.children).1 st2 ∧
                    (∀ d, aliveIn st2 d =
                      aliveIn (disposeChildren fuel' st reg.children).1 d) ∧
                    (∀ y z, childLink (disposeChildren fuel' st reg.children).1 y z →
                      z ≠ iid → childLink st2 y z) ∧
                    (∀ d, unlTr.filter (isOnDisposeOf d) = []) := by
                cases hp : reg.parentId with
                | none =>
                    exact ⟨_, _, rfl, stEvolves_refl _, fun d => rfl,
                      fun y z hl _ => hl, fun d => rfl⟩
                | some pid =>
                    cases hm : mapGet (disposeChildren fuel' st reg.children).1 pid with
                    | none =>
                        refine ⟨(disposeChildren fuel' st reg.children).1, [], ?_,
                          stEvolves_refl _, fun d => rfl,
                          fun y z hl _ => hl, fun d => rfl⟩
                        dsimp only
                        rw [hm]
                    | some preg =>
                        refine ⟨updateReg (disposeChildren fuel' st reg.children).1 pid
                            (fun pr => { pr with
                              children := pr.children.filter (fun c => c ≠ iid) }),
                          [Event.unlink iid pid], ?_,
                          stEvolves_filterChildren _ pid iid,
                          fun d => aliveIn_filterChildren _ pid iid d,
                          fun y z hl hz => childLink_filterChildren_pres _ pid iid y z hl hz,
                          fun d => rfl⟩
                        dsimp only
                        rw [hm]
              simp only [disposeInstanceRecursively, hreg, hdisp, Bool.false_eq_true,
                if_false, hshape]
              have hev13 : stEvolves st2
                  (updateReg st2 iid (fun r => { r with isDisposed := true, children := [] })) :=
                stEvolves_mark st2 iid
              refine ⟨?_, ?_, ?_, ?_, ?_, ?_⟩
              · exact stEvolves_trans (stEvolves_trans H1.1 hev12) hev13
              · intro d
                rw [List.filter_append, List.filter_append, List.filter_append,
                  H1.2.1 d, hunltr d]
                by_cases hd : d = iid
                · subst hd
                  rw [filter_onDispose_runOnDisposeLoop_self]
                  have hown : ownPlugins st d = reg.plugins := by
                    simp [ownPlugins, mapGet, hreg, hdisp]
                  rw [if_neg (by
                    rintro ⟨-, hx2⟩
                    rw [halive1] at hx2
                    exact absurd hx2 (by simp))]
                  rw [if_pos ⟨halive_st, aliveIn_mark_self st2 d⟩, hown]
                  simp [isOnDisposeOf]
                · rw [filter_onDispose_runOnDisposeLoop_other iid d hd]
                  have hst3 : aliveIn (updateReg st2 iid
                      (fun r => { r with isDisposed := true, children := [] })) d =
                      aliveIn (disposeChildren fuel' st reg.children).1 d := by
                    rw [aliveIn_mark_other st2 iid d hd, halive12 d]
                  rw [hst3]
                  simp [isOnDisposeOf]
              · intro d h1 h3
                by_cases hd : d = iid
                · rw [hd]
                · rw [aliveIn_mark_other st2 iid d hd, halive12 d] at h3
                  obtain ⟨c, hc, hle⟩ := H1.2.2.1 d h1 h3
                  exact le_trans hle (le_of_lt (hrank iid reg hreg c hc))
              · intro y z hl hy3 hz3
                have hyne : y ≠ iid := by
                  intro hcontra
                  rw [hcontra, aliveIn_mark_self st2 iid] at hy3
                  exact absurd hy3 (by simp)
                have hzne : z ≠ iid := by
                  intro hcontra
                  rw [hcontra, aliveIn_mark_self st2 iid] at hz3
                  exact absurd hz3 (by simp)
                rw [aliveIn_mark_other st2 iid y hyne, halive12 y] at hy3
                rw [aliveIn_mark_other st2 iid z hzne, halive12 z] at hz3
                exact childLink_mark_pres st2 iid y z
                  (hlink12 y z (H1.2.2.2.1 y z hl hy3 hz3) hzne) hyne
              · intro y z hl hy3
                cases ha1 : aliveIn (disposeChildren fuel' st reg.children).1 y with
                | false =>
                    have hz1 := H1.2.2.2.2.1 y z hl ha1
                    exact aliveIn_false_mono (stEvolves_trans hev12 hev13) z hz1
                | true =>
                    have hy_eq : y = iid := by
                      by_contra hne
                      rw [aliveIn_mark_other st2 iid y hne, halive12 y, ha1] at hy3
                      exact absurd hy3 (by simp)
                    subst hy_eq
                    obtain ⟨r', hf', hd', hm'⟩ := hl
                    rw [hreg] at hf'
                    cases hf'
                    have hz1 := H1.2.2.2.2.2 z hm'
                    exact aliveIn_false_mono (stEvolves_trans hev12 hev13) z hz1
              · exact aliveIn_mark_self st2 iid
  termination_by (fuel, 0)

/-- The disposal guarantees of the children loop. -/
theorem disposeList_spec (fuel : Nat) (st : EngineState) (cs : List String)
    (rank : String → Nat) (hrank : RankOK st rank)
    (hfuel : ∀ c ∈ cs, rank c < fuel) :
    DisposalListSpec rank st cs (disposeChildren fuel st cs) := by
  cases cs with
  | nil =>
      simp only [disposeChildren]
      refine ⟨stEvolves_refl st, ?_, ?_, ?_, ?_, ?_⟩
      · intro d
        rw [List.filter_nil, if_neg]
        rintro ⟨hx1, hx2⟩
        rw [hx1] at hx2
        exact absurd hx2 (by simp)
      · intro d hx1 hx2
        rw [hx1] at hx2
        exact absurd hx2 (by simp)
      · intro y z hl _ _
        exact hl
      · intro y z hl hy
        obtain ⟨r, hf, hd, -⟩ := hl
        simp [aliveIn, hf, hd] at hy
      · intro c hc
        exact absurd hc (by simp)
  | cons c rest =>
      have hc_fuel : rank c < fuel := hfuel c (by simp)
      have H1 := disposeRec_spec fuel st c rank hrank hc_fuel
      have hrank1 := RankOK_pres rank hrank H1.1
      have hrest_fuel : ∀ x ∈ rest, rank x < fuel :=
        fun x hx => hfuel x (by simp [hx])
      have H2 := disposeList_spec fuel (disposeInstanceRecursively fuel st c).1
        rest rank hrank1 hrest_fuel
      simp only [disposeChildren]
      refine ⟨stEvolves_trans H1.1 H2.1, ?_, ?_, ?_, ?_, ?_⟩
      · exact trace_compose _ _ H1.1 H2.1 H1.2.1 H2.2.1
      · intro d h1 h2
        cases ha1 : aliveIn (disposeInstanceRecursively fuel st c).1 d with
        | false =>
            exact ⟨c, by simp, H1.2.2.1 d h1 ha1⟩
        | true =>
            obtain ⟨x, hx, hle⟩ := H2.2.2.1 d ha1 h2
            exact ⟨x, by simp [hx], hle⟩
      · intro y z hl hy hz
        have hy1 := aliveIn_true_mono H2.1 y hy
        have hz1 := aliveIn_true_mono H2.1 z hz
        exact H2.2.2.2.1 y z (H1.2.2.2.1 y z hl hy1 hz1) hy hz
      · intro y z hl hy
        cases ha1 : aliveIn (disposeInstanceRecursively fuel st c).1 y with
        | false =>
            exact aliveIn_false_mono H2.1 z (H1.2.2.2.2.1 y z hl ha1)
        | true =>
            cases hz1 : aliveIn (disposeInstanceRecursively fuel st c).1 z with
            | false => exact aliveIn_false_mono H2.1 z hz1
            | true =>
                exact H2.2.2.2.2.1 y z (H1.2.2.2.1 y z hl ha1 hz1) hy
      · intro x hx
        rcases List.mem_cons.mp hx with hx1 | hx2
        · rw [hx1]
          exact aliveIn_false_mono H2.1 c H1.2.2.2.2.2
        · exact H2.2.2.2.2.2 x hx2
  termination_by (fuel, cs.length + 1)

end

/-- Hereditary death along a descendant chain: once the chain's head is
dead after a disposal, so is every scope below it. -/
theorem descChain_dead {st st' : EngineState}
    (T4 : ∀ y z, childLink st y z → aliveIn st' y = false → aliveIn st' z = false) :
    ∀ (l : List String) (x d : String), descChain st x l d →
      aliveIn st' x = false → aliveIn st' d = false
  | [], x, d => fun hl hx => T4 x d hl hx
  | z :: rest, x, d => fun hl hx =>
      descChain_dead T4 rest z d hl.2 (T4 x z hl.1 hx)

/-- `disposeInstanceRecursively` is a no-op on an already-disposed
scope, at any fuel. -/
theorem disposeRec_disposed (fuel : Nat) (st : EngineState) (iid : String)
    (r : Reg) (hr : findReg st iid = some r) (hd : r.isDisposed = true) :
    disposeInstanceRecursively fuel st iid = (st, []) := by
  simp only [disposeInstanceRecursively, hr, hd, if_true]

/-- C8 (amended): disposing a live scope disposes all descendant
scopes first, then unlinks from the parent, then invokes each owned
plugin's `onDispose` — exactly once per killed scope across the whole
disposal and never for a surviving scope — then marks the scope
disposed.  Re-disposal is a no-op, and every further registering,
child-creation or state-creation operation on the disposed scope or a
disposed descendant raises the synchronous usage error. -/
theorem scope_disposal (st : EngineState) (iid : String) (rank : String → Nat)
    (reg : Reg)
    (hrank : RankOK st rank) (hfuel : rank iid < st.regs.length + 1)
    (hreg : findReg st iid = some reg) (hdisp : reg.isDisposed = false) :
    (∀ d, (disposeScope st iid).2.filter (isOnDisposeOf d) =
      (if aliveIn st d = true ∧ aliveIn (disposeScope st iid).1 d = false
       then onDisposeEvts d (ownPlugins st d) else [])) ∧
    aliveIn (disposeScope st iid).1 iid = false ∧
    (∀ l d, descChain st iid l d → aliveIn (disposeScope st iid).1 d = false) ∧
    (∃ tr1 unlTr, (disposeScope st iid).2 =
        tr1 ++ unlTr ++ runOnDisposeLoop iid reg.plugins ++
          [Event.markDisposed iid] ∧
      tr1.filter (isOnDisposeOf iid) = [] ∧
      (unlTr = [] ∨ ∃ pid, unlTr = [Event.unlink iid pid])) ∧
    disposeScope (disposeScope st iid).1 iid = ((disposeScope st iid).1, []) ∧
    (∀ d ps hp newOid fields, aliveIn st d = true →
      aliveIn (disposeScope st iid).1 d = false →
      (∃ e, useInstance (disposeScope st iid).1 d ps = .error e) ∧
      (∃ e, instanceCreateProxy (disposeScope st iid).1 d hp newOid fields = .error e) ∧
      (∃ e, createChildInstance (disposeScope st iid).1 d = .error e)) := by
  have H := disposeRec_spec (st.regs.length + 1) st iid rank hrank hfuel
  have hdead : aliveIn (disposeScope st iid).1 iid = false := H.2.2.2.2.2
  have halive_st : aliveIn st iid = true := by simp [aliveIn, hreg, hdisp]
  have hkilled : ∀ d, aliveIn st d = true →
      aliveIn (disposeScope st iid).1 d = false →
      ∃ r', findReg (disposeScope st iid).1 d = some r' ∧ r'.isDisposed = true := by
    intro d h1 h2
    have hsome : ∃ r0, findReg st d = some r0 := by
      cases hf : findReg st d with
      | none => simp [aliveIn, hf] at h1
      | some r0 => exact ⟨r0, rfl⟩
    obtain ⟨r0, hr0⟩ := hsome
    obtain ⟨r', hr'⟩ := findReg_some_of_evolves H.1 d r0 hr0
    have hr'2 : findReg (disposeScope st iid).1 d = some r' := hr'
    refine ⟨r', hr'2, ?_⟩
    simp only [aliveIn, hr'2] at h2
    cases hb : r'.isDisposed with
    | true => rfl
    | false => rw [hb] at h2; exact absurd h2 (by simp)
  refine ⟨H.2.1, hdead, ?_, ?_, ?_, ?_⟩
  · intro l d hchain
    exact descChain_dead H.2.2.2.2.1 l iid d hchain hdead
  · -- trace shape: one unfolding step of the main branch
    have hcb : ∀ c ∈ reg.children, rank c < st.regs.length := by
      intro c hc
      exact lt_of_lt_of_le (hrank iid reg hreg c hc) (Nat.lt_succ_iff.mp hfuel)
    have HL := disposeList_spec st.regs.length st reg.children rank hrank hcb
    have halive1 : aliveIn (disposeChildren st.regs.length st reg.children).1 iid
        = true := by
      cases ha : aliveIn (disposeChildren st.regs.length st reg.children).1 iid with
      | true => rfl
      | false =>
          obtain ⟨c, hc, hle⟩ := HL.2.2.1 iid halive_st ha
          exact absurd (hrank iid reg hreg c hc) (Nat.not_lt.mpr hle)
    have hfilt : ((disposeChildren st.regs.length st reg.children).2).filter
        (isOnDisposeOf iid) = [] := by
      rw [HL.2.1 iid, if_neg]
      rintro ⟨-, hx⟩
      rw [halive1] at hx
      exact absurd hx (by simp)
    show ∃ tr1 unlTr,
      (disposeInstanceRecursively (st.regs.length + 1) st iid).2 =
        tr1 ++ unlTr ++ runOnDisposeLoop iid reg.plugins ++
          [Event.markDisposed iid] ∧
      tr1.filter (isOnDisposeOf iid) = [] ∧
      (unlTr = [] ∨ ∃ pid, unlTr = [Event.unlink iid pid])
    simp only [disposeInstanceRecursively, hreg, hdisp, Bool.false_eq_true,
      if_false]
    cases hp : reg.parentId with
    | none =>
        refine ⟨(disposeChildren st.regs.length st reg.children).2, [], ?_,
          hfilt, Or.inl rfl⟩
        simp
    | some pid =>
        cases hm : mapGet (disposeChildren st.regs.length st reg.children).1 pid with
        | none =>
            refine ⟨(disposeChildren st.regs.length st reg.children).2, [], ?_,
              hfilt, Or.inl rfl⟩
            dsimp only
            rw [hm]
        | some preg =>
            refine ⟨(disposeChildren st.regs.length st reg.children).2,
              [Event.unlink iid pid], ?_, hfilt, Or.inr ⟨pid, rfl⟩⟩
            dsimp only
            rw [hm]
  · -- re-disposal is a no-op
    obtain ⟨r', hr', hd'⟩ := hkilled iid halive_st hdead
    exact disposeRec_disposed _ _ iid r' hr' hd'
  · -- further operations raise the usage error
    intro d ps hp newOid fields h1 h2
    obtain ⟨r', hr', hd'⟩ := hkilled d h1 h2
    refine ⟨⟨"This instance has been disposed", ?_⟩,
      ⟨"This instance has been disposed", ?_⟩,
      ⟨"This instance has been disposed", ?_⟩⟩
    · simp [useInstance, hr', hd']
    · simp [instanceCreateProxy, hr', hd']
    · simp [createChildInstance, hr', hd']

/-- C8 counterexample: on the parent/child fixture, disposing the child
emits the `unlink` event BEFORE the scope's own `onDispose` — the code
unlinks from the parent first and only then invokes the owned plugins'
`onDispose` hooks, the reverse of the claimed order. -/
theorem unlink_precedes_own_onDispose :
    (disposeScope disposeFixtureSt "c").2 =
      [Event.unlink "c" "p", Event.onDispose "c" "d", Event.markDisposed "c"] := by
  simp [disposeScope, disposeFixtureSt, disposeInstanceRecursively,
    disposeChildren, findReg, mapGet, updateReg, runOnDisposeLoop,
    disposablePlugin]

/-- C8 witness: on the concrete two-scope fixture, the disposal theorem
applies — the child scope ends up dead and re-disposal is a no-op. -/
theorem scope_disposal_witness :
    RankOK disposeFixtureSt fixtureRank ∧
    fixtureRank "c" < disposeFixtureSt.regs.length + 1 ∧
    aliveIn (disposeScope disposeFixtureSt "c").1 "c" = false ∧
    disposeScope (disposeScope disposeFixtureSt "c").1 "c" =
      ((disposeScope disposeFixtureSt "c").1, []) := by
  have hrank : RankOK disposeFixtureSt fixtureRank := by
    intro j r hf c hc
    by_cases hj : j = "p"
    · subst hj
      simp [findReg, disposeFixtureSt] at hf
      subst hf
      simp at hc
      subst hc
      simp [fixtureRank]
    · by_cases hj2 : j = "c"
      · subst hj2
        have hj' : ¬ ("p" = "c") := by decide
        simp [findReg, disposeFixtureSt, hj'] at hf
        subst hf
        simp at hc
      · have hj' : ¬ ("p" = j) := fun h => hj h.symm
        have hj2' : ¬ ("c" = j) := fun h => hj2 h.symm
        simp [findReg, disposeFixtureSt, hj', hj2'] at hf
  have H := scope_disposal disposeFixtureSt "c" fixtureRank
    { id := "c", parentId := some "p", plugins := [disposablePlugin] }
    hrank (by decide) rfl rfl
  exact ⟨hrank, by decide, H.2.1, H.2.2.2.2.1⟩

end VP
